import Mathlib

/-!
Shallow embedding of the CivitAI downloader (src/download_with_aria.py) and
verification of its specification claims.

Modelling conventions:
* Paths are plain strings; the filesystem is a `Disk` structure holding the set
  of regular files (a duplicate-free-by-construction list, whose order stands
  in for the unspecified directory-enumeration order of `glob`/`rglob`), the
  set of directories, and size / mtime maps.
* Machine floats appear only as `size / (1024*1024)` where the divisor is a
  power of two, so the comparison with the 1 MB threshold and the `.2f`
  formatting are exact rational computations; they are modelled with exact
  `Nat` arithmetic (round-half-to-even for `.2f`, as Python formats binary
  floats that are exact for all realistic file sizes).
* Network and subprocess effects are oracles carried by a `World` value:
  successive header probes, aria2 invocations and zip-archive contents are
  consumed from lists, and every outward call is recorded in an event trace.
* Python truthiness of optional strings (`None` and `""` are falsy) is modelled
  explicitly wherever the source relies on it.
-/

/-! ## Decimal rendering of naturals (Python `str(n)` / f-string `{n}`) -/

/-- Decimal digits of `n` (most significant first), by fuel recursion;
`fuel ≥ n` suffices since `n / 10 < n` for `n ≠ 0`. -/
def natToDecAux : Nat → Nat → List Char
  | 0, _ => []
  | fuel+1, n => if n = 0 then [] else natToDecAux fuel (n / 10) ++ [Char.ofNat (48 + n % 10)]

/-- Decimal rendering of a natural number, as Python `str` produces it. -/
def natToDec (n : Nat) : String :=
  if n = 0 then "0" else ⟨natToDecAux n n⟩

/-- Value of a digit string, used to invert `natToDec`. -/
def decVal (l : List Char) : Nat := l.foldl (fun a c => 10 * a + (c.toNat - 48)) 0

theorem decVal_append_digit (l : List Char) (c : Char) :
    decVal (l ++ [c]) = 10 * decVal l + (c.toNat - 48) := by
  unfold decVal
  rw [List.foldl_append]
  rfl

theorem toNat_digitChar (d : Nat) (h : d < 10) : (Char.ofNat (48 + d)).toNat = 48 + d := by
  interval_cases d <;> decide

theorem decVal_natToDecAux : ∀ fuel n, n ≤ fuel → decVal (natToDecAux fuel n) = n := by
  intro fuel
  induction fuel with
  | zero => intro n h; interval_cases n; rfl
  | succ fuel ih =>
    intro n h
    by_cases h0 : n = 0
    · subst h0; rfl
    · have hd : n / 10 < n := Nat.div_lt_self (Nat.pos_of_ne_zero h0) (by norm_num)
      have : n / 10 ≤ fuel := by omega
      simp only [natToDecAux, h0, if_false]
      rw [decVal_append_digit, ih _ this, toNat_digitChar _ (Nat.mod_lt _ (by norm_num))]
      omega

theorem natToDec_injective : Function.Injective natToDec := by
  have hz : decVal (("0" : String).data) = 0 := by decide
  intro a b h
  unfold natToDec at h
  by_cases ha : a = 0 <;> by_cases hb : b = 0
  · omega
  · exfalso
    rw [if_pos ha, if_neg hb] at h
    have h2 : decVal (("0" : String).data) = decVal (natToDecAux b b) :=
      congrArg decVal (congrArg String.data h)
    rw [hz, decVal_natToDecAux b b le_rfl] at h2
    exact hb h2.symm
  · exfalso
    rw [if_neg ha, if_pos hb] at h
    have h2 : decVal (natToDecAux a a) = decVal (("0" : String).data) :=
      congrArg decVal (congrArg String.data h)
    rw [hz, decVal_natToDecAux a a le_rfl] at h2
    exact ha h2
  · rw [if_neg ha, if_neg hb] at h
    have h2 : decVal (natToDecAux a a) = decVal (natToDecAux b b) :=
      congrArg decVal (congrArg String.data h)
    rw [decVal_natToDecAux a a le_rfl, decVal_natToDecAux b b le_rfl] at h2
    exact h2

/-! ## String and path helpers -/

/-- ASCII lower-casing of a string, modelling Python `str.lower()` on the
ASCII inputs the downloader works with. -/
def lowerStr (s : String) : String := ⟨s.data.map Char.toLower⟩

/-- Does `s` end with `suf`? (Python `str.endswith`.) -/
def endsWithStr (s suf : String) : Bool := suf.data.isSuffixOf s.data

/-- Does `s` start with `pre`? -/
def startsWithStr (s pre : String) : Bool := pre.data.isPrefixOf s.data

/-- Last path component of `p` (Python `PurePath.name` for the paths in use:
everything after the final `/`). -/
def lastComponent (p : String) : String := ⟨(p.data.reverse.takeWhile (· ≠ '/')).reverse⟩

/-- Python `PurePath.stem` / `PurePath.suffix` of a file *name*:
the extension starts at the last dot, except when that dot is the first
character or the last character of the name. Returns `(stem, suffix)` with
`stem ++ suffix = name`. -/
def pyStemSuffix (name : String) : String × String :=
  let cs := name.data
  let tl := cs.reverse.takeWhile (· ≠ '.')
  if '.' ∈ cs ∧ tl ≠ [] ∧ tl.length + 1 < cs.length then
    (⟨cs.take (cs.length - (tl.length + 1))⟩, ⟨'.' :: tl.reverse⟩)
  else (name, "")

/-- Python `Path(p).stem` (stem of the last component). -/
def pyStem (p : String) : String := (pyStemSuffix (lastComponent p)).1

/-- Python `Path(p).suffix`. -/
def pySuffix (p : String) : String := (pyStemSuffix (lastComponent p)).2

/-- Python whitespace (the characters `str.strip()` and `\s` treat as space,
restricted to ASCII). -/
def isPyWs (c : Char) : Bool := c = ' ' ∨ c = '\t' ∨ c = '\n' ∨ c = '\r' ∨ c = '\x0b' ∨ c = '\x0c'

/-- Python `str.strip()` (ASCII whitespace). -/
def stripStr (s : String) : String :=
  ⟨((s.data.dropWhile isPyWs).reverse.dropWhile isPyWs).reverse⟩

/-! ## Percent-decoding (`urllib.parse.unquote`) -/

/-- Hex digit value, if any. -/
def hexVal (c : Char) : Option Nat :=
  if '0' ≤ c ∧ c ≤ '9' then some (c.toNat - 48)
  else if 'a' ≤ c ∧ c ≤ 'f' then some (c.toNat - 87)
  else if 'A' ≤ c ∧ c ≤ 'F' then some (c.toNat - 55)
  else none

/-- UTF-8 encoding of one character. -/
def charUtf8 (c : Char) : List Nat :=
  let n := c.toNat
  if n < 0x80 then [n]
  else if n < 0x800 then [0xC0 + n / 64, 0x80 + n % 64]
  else if n < 0x10000 then [0xE0 + n / 4096, 0x80 + n / 64 % 64, 0x80 + n % 64]
  else [0xF0 + n / 262144, 0x80 + n / 4096 % 64, 0x80 + n / 64 % 64, 0x80 + n % 64]

/-- UTF-8 decoding of a byte run, with fuel (one unit per decoded character;
`fuel ≥ length` suffices as every step consumes at least one byte). Valid
sequences decode exactly; each invalid byte yields U+FFFD (Python
`errors='replace'`, replacement granularity approximated for malformed input,
which never arises in the claims). -/
def utf8DecodeAux : Nat → List Nat → List Char
  | 0, _ => []
  | _, [] => []
  | fuel+1, b :: rest =>
    if b < 0x80 then Char.ofNat b :: utf8DecodeAux fuel rest
    else if 0xC2 ≤ b ∧ b ≤ 0xDF then
      match rest with
      | b2 :: r2 =>
        if 0x80 ≤ b2 ∧ b2 ≤ 0xBF then
          Char.ofNat ((b - 0xC0) * 64 + (b2 - 0x80)) :: utf8DecodeAux fuel r2
        else Char.ofNat 0xFFFD :: utf8DecodeAux fuel rest
      | [] => [Char.ofNat 0xFFFD]
    else if 0xE0 ≤ b ∧ b ≤ 0xEF then
      match rest with
      | b2 :: b3 :: r3 =>
        if (0x80 ≤ b2 ∧ b2 ≤ 0xBF) ∧ (0x80 ≤ b3 ∧ b3 ≤ 0xBF) ∧
           (b = 0xE0 → 0xA0 ≤ b2) ∧ (b = 0xED → b2 ≤ 0x9F) then
          Char.ofNat ((b - 0xE0) * 4096 + (b2 - 0x80) * 64 + (b3 - 0x80)) :: utf8DecodeAux fuel r3
        else Char.ofNat 0xFFFD :: utf8DecodeAux fuel rest
      | _ => Char.ofNat 0xFFFD :: utf8DecodeAux fuel rest
    else if 0xF0 ≤ b ∧ b ≤ 0xF4 then
      match rest with
      | b2 :: b3 :: b4 :: r4 =>
        if (0x80 ≤ b2 ∧ b2 ≤ 0xBF) ∧ (0x80 ≤ b3 ∧ b3 ≤ 0xBF) ∧ (0x80 ≤ b4 ∧ b4 ≤ 0xBF) ∧
           (b = 0xF0 → 0x90 ≤ b2) ∧ (b = 0xF4 → b2 ≤ 0x8F) then
          Char.ofNat ((b - 0xF0) * 262144 + (b2 - 0x80) * 4096 + (b3 - 0x80) * 64 + (b4 - 0x80))
            :: utf8DecodeAux fuel r4
        else Char.ofNat 0xFFFD :: utf8DecodeAux fuel rest
      | _ => Char.ofNat 0xFFFD :: utf8DecodeAux fuel rest
    else Char.ofNat 0xFFFD :: utf8DecodeAux fuel rest

/-- UTF-8 decoding of a byte list. -/
def utf8Decode (l : List Nat) : List Char := utf8DecodeAux l.length l

/-- Token stream for percent-decoding: literal characters and decoded bytes. -/
inductive PctTok where
  | chr (c : Char)
  | byte (b : Nat)
  deriving DecidableEq

/-- Split a string into literal characters and `%XX`-decoded bytes; a `%` not
followed by two hex digits stays literal (as in `urllib.parse.unquote`). -/
def pctTokens : List Char → List PctTok
  | [] => []
  | '%' :: a :: b :: rest =>
    match hexVal a, hexVal b with
    | some x, some y => .byte (16 * x + y) :: pctTokens rest
    | _, _ => .chr '%' :: pctTokens (a :: b :: rest)
  | c :: rest => .chr c :: pctTokens rest

/-- Leading run of byte tokens. -/
def byteRun : List PctTok → List Nat × List PctTok
  | .byte b :: rest => let (bs, r) := byteRun rest; (b :: bs, r)
  | l => ([], l)

theorem byteRun_length_le : ∀ l : List PctTok, (byteRun l).2.length ≤ l.length := by
  intro l
  induction l with
  | nil => simp [byteRun]
  | cons t rest ih =>
    cases t with
    | chr c => simp [byteRun]
    | byte b => simpa [byteRun] using Nat.le_succ_of_le ih

/-- Render the token stream with fuel (one unit per token group): maximal byte
runs are UTF-8 decoded, literal characters pass through (as `unquote` joins
decoded byte chunks with the literal parts). -/
def renderToksAux : Nat → List PctTok → List Char
  | 0, _ => []
  | _, [] => []
  | fuel+1, .chr c :: rest => c :: renderToksAux fuel rest
  | fuel+1, .byte b :: rest =>
    let (bs, r) := byteRun rest
    utf8Decode (b :: bs) ++ renderToksAux fuel r

/-- Render a complete token stream. -/
def renderToks (l : List PctTok) : List Char := renderToksAux l.length l

/-- Python `urllib.parse.unquote` with default UTF-8 decoding. -/
def unquote (s : String) : String := ⟨renderToks (pctTokens s.data)⟩

/-! ## Content-Disposition parsing
(`CivitAIDownloader._parse_content_disposition_filename`)

The three `re.search` patterns of the source are modelled by hand-rolled
leftmost matchers. Backtracking is unnecessary: in each pattern the greedy
character class excludes the character that the following literal piece
requires, so only the maximal class match can succeed at a given position.
Case-insensitivity is modelled on ASCII via `Char.toLower`. -/

/-- Match a (lower-case) literal case-insensitively at the head, returning the
rest of the input. -/
def matchLit : List Char → List Char → Option (List Char)
  | [], s => some s
  | _ :: _, [] => none
  | l :: ls, c :: cs => if c.toLower = l then matchLit ls cs else none

/-- Attempt the RFC 5987 pattern `filename\*\s*=\s*([^'";]+)''([^;]+)` at the
head of the input; on success return the captured percent-encoded value. -/
def matchExtAt (s : List Char) : Option (List Char) :=
  match matchLit ("filename*".data) s with
  | none => none
  | some s1 =>
    match (s1.dropWhile isPyWs) with
    | '=' :: s3 =>
      let s4 := s3.dropWhile isPyWs
      let cset := s4.takeWhile (fun c => ¬(c = '\'' ∨ c = '"' ∨ c = ';'))
      if cset.isEmpty then none
      else
        match s4.drop cset.length with
        | '\'' :: '\'' :: s5 =>
          let enc := s5.takeWhile (· ≠ ';')
          if enc.isEmpty then none else some enc
        | _ => none
    | _ => none

/-- Attempt `filename\s*=\s*"([^"]+)"` at the head of the input. -/
def matchQuotedAt (s : List Char) : Option (List Char) :=
  match matchLit ("filename".data) s with
  | none => none
  | some s1 =>
    match (s1.dropWhile isPyWs) with
    | '=' :: s3 =>
      match s3.dropWhile isPyWs with
      | '"' :: s4 =>
        let v := s4.takeWhile (· ≠ '"')
        if v.isEmpty then none
        else match s4.drop v.length with
          | '"' :: _ => some v
          | _ => none
      | _ => none
    | _ => none

/-- Attempt `filename\s*=\s*([^;]+)` at the head of the input. The `\s*` /
`[^;]+` backtracking interplay is value-equivalent, after the `.strip()` the
caller applies, to taking everything up to the next `;`. -/
def matchBareAt (s : List Char) : Option (List Char) :=
  match matchLit ("filename".data) s with
  | none => none
  | some s1 =>
    match (s1.dropWhile isPyWs) with
    | '=' :: s3 =>
      let v := s3.takeWhile (· ≠ ';')
      if v.isEmpty then none else some v
    | _ => none

/-- Leftmost search (`re.search`): try the matcher at every position. -/
def scanFor (m : List Char → Option (List Char)) : List Char → Option (List Char)
  | [] => m []
  | c :: cs =>
    match m (c :: cs) with
    | some r => some r
    | none => scanFor m cs

/-- The source's `_parse_content_disposition_filename`: RFC 5987 form first
(percent-decoded), then the quoted plain form, then the bare plain form
(stripped). Empty header means no result. The `try/except` around `unquote`
never fires on `str` input, so it is not modelled. -/
def parseContentDispositionFilename (headerValue : String) : Option String :=
  if headerValue = "" then none
  else
    match scanFor matchExtAt headerValue.data with
    | some enc => some (unquote ⟨enc⟩)
    | none =>
      match scanFor matchQuotedAt headerValue.data with
      | some v => some ⟨v⟩
      | none =>
        match scanFor matchBareAt headerValue.data with
        | some v => some (stripStr ⟨v⟩)
        | none => none

/-! ## The `.2f` / `.1f` size formatting -/

/-- Left-pad a decimal string with zeros to width `w`. -/
def padZeros (s : String) (w : Nat) : String := ⟨List.replicate (w - s.data.length) '0' ++ s.data⟩

/-- Format `size / 2^20` (an exact binary rational, hence exactly represented
by the Python float for all realistic sizes) with `prec` decimal places,
rounding half to even as float formatting does. -/
def fmtMB (size : Nat) (prec : Nat) : String :=
  let d := 1048576
  let q := size * 10 ^ prec
  let n0 := q / d
  let r := q % d
  let n := if 2 * r > d then n0 + 1 else if 2 * r < d then n0 else if n0 % 2 = 0 then n0 else n0 + 1
  natToDec (n / 10 ^ prec) ++ "." ++ padZeros (natToDec (n % 10 ^ prec)) prec

/-! ## Filesystem model -/

/-- The filesystem as the downloader observes it: the set of regular files
(duplicate-free list; list order stands in for the unspecified directory
enumeration order), the set of directories, and size / mtime maps (meaningful
on existing files). -/
structure Disk where
  files : List String
  dirs : List String
  size : String → Nat
  mtime : String → Int

/-- Create (or overwrite) a regular file with the given size and mtime. -/
def createFile (d : Disk) (p : String) (sz : Nat) (mt : Int) : Disk :=
  { d with
    files := if p ∈ d.files then d.files else p :: d.files
    size := fun q => if q = p then sz else d.size q
    mtime := fun q => if q = p then mt else d.mtime q }

/-- Create a file whose size/mtime are irrelevant to the model (zip entries
extracted into the scratch directory; the validator is never applied there). -/
def addFile (d : Disk) (p : String) : Disk :=
  { d with files := if p ∈ d.files then d.files else p :: d.files }

/-- `Path.unlink(missing_ok=True)`. -/
def removeFile (d : Disk) (p : String) : Disk := { d with files := d.files.filter (· ≠ p) }

/-- `mkdir(exist_ok=True)`. -/
def addDir (d : Disk) (p : String) : Disk :=
  { d with dirs := if p ∈ d.dirs then d.dirs else p :: d.dirs }

/-- Is `p` strictly inside directory `dir`? -/
def underDir (dir p : String) : Bool := startsWithStr p (dir ++ "/")

/-- `shutil.rmtree(dir, ignore_errors=True)`. -/
def rmtree (d : Disk) (dir : String) : Disk :=
  { d with
    files := d.files.filter (fun p => ¬ underDir dir p)
    dirs := (d.dirs.filter (fun p => ¬ underDir dir p)).filter (· ≠ dir) }

/-- Is `p` a direct child of directory `dir` (what `dir.glob("*")` yields)? -/
def childOf (dir p : String) : Bool :=
  underDir dir p ∧ '/' ∉ p.data.drop (dir.data.length + 1)

/-! ## `CivitAIDownloader.validate_file` -/

/-- The validator. The marker path in the source is
`file_path.with_suffix(file_path.suffix + '.aria2')`; since the new suffix
extends the old one, `with_suffix` replaces `suffix` by `suffix + '.aria2'`
and the result is always literally `path + '.aria2'`, which is how it is
modelled. The float comparison `size/2^20 < 1` is exact, i.e. `size <
1048576`. -/
def validateFile (d : Disk) (p : String) : Bool × String :=
  if p ∉ d.files then (false, "File does not exist")
  else if (p ++ ".aria2") ∈ d.files then
    (false, "Incomplete download detected (aria2 control file exists)")
  else if d.size p < 1048576 then
    (false, "File suspiciously small (" ++ fmtMB (d.size p) 2 ++ "MB)")
  else (true, "File valid (" ++ fmtMB (d.size p) 1 ++ "MB)")

/-- `CivitAIDownloader.cleanup_incomplete_download`: remove the file and its
aria2 control file. -/
def cleanupIncompleteDownload (d : Disk) (p : String) : Disk :=
  removeFile (removeFile d p) (p ++ ".aria2")

/-! ## `CivitAIDownloader._get_unique_filename` -/

/-- The candidate path `dir/stem_k·suffix` tried by the collision loop. -/
def candName (dir stem suf : String) (k : Nat) : String :=
  dir ++ "/" ++ stem ++ "_" ++ natToDec k ++ suf

/-- The `while True` collision loop, with fuel; `files.length + 1` fuel always
suffices (`uniqueLoop_exists_free`), so the fuel-exhausted base case is
unreachable in any run the theorems talk about. -/
def uniqueLoop (files : List String) (dir stem suf : String) : Nat → Nat → String
  | 0, c => candName dir stem suf c
  | fuel+1, c =>
    if candName dir stem suf c ∈ files then uniqueLoop files dir stem suf fuel (c + 1)
    else candName dir stem suf c

/-- `_get_unique_filename(dir / name)`: return `dir/name` if free, else the
first `dir/stem_k·suffix` (k = 1, 2, ...) that is free. -/
def getUniqueFilename (files : List String) (dir name : String) : String :=
  if (dir ++ "/" ++ name) ∈ files then
    uniqueLoop files dir (pyStemSuffix name).1 (pyStemSuffix name).2 (files.length + 1) 1
  else dir ++ "/" ++ name

theorem candName_injective (dir stem suf : String) :
    Function.Injective (candName dir stem suf) := by
  intro j k h
  have hd : (dir ++ "/" ++ stem ++ "_").data ++ ((natToDec j).data ++ suf.data)
      = (dir ++ "/" ++ stem ++ "_").data ++ ((natToDec k).data ++ suf.data) := by
    have := congrArg String.data h
    simpa [candName, String.data_append, List.append_assoc] using this
  have h2 : (natToDec j).data ++ suf.data = (natToDec k).data ++ suf.data :=
    List.append_cancel_left hd
  have h3 : (natToDec j).data = (natToDec k).data := List.append_cancel_right h2
  exact natToDec_injective (String.ext h3)

theorem uniqueLoop_spec (files : List String) (dir stem suf : String) :
    ∀ fuel c, (∃ i, i < fuel ∧ candName dir stem suf (c + i) ∉ files) →
      ∃ k, c ≤ k ∧ uniqueLoop files dir stem suf fuel c = candName dir stem suf k ∧
        candName dir stem suf k ∉ files ∧
        (∀ j, c ≤ j → j < k → candName dir stem suf j ∈ files) := by
  intro fuel
  induction fuel with
  | zero => intro c ⟨i, hi, _⟩; omega
  | succ fuel ih =>
    intro c ⟨i, hi, hfree⟩
    by_cases hc : candName dir stem suf c ∈ files
    · have hi0 : i ≠ 0 := by rintro rfl; simp at hfree; exact hfree hc
      have harg : c + 1 + (i - 1) = c + i := by omega
      obtain ⟨k, hk1, hk2, hk3, hk4⟩ := ih (c + 1) ⟨i - 1, by omega, harg ▸ hfree⟩
      refine ⟨k, by omega, ?_, hk3, ?_⟩
      · simpa [uniqueLoop, hc] using hk2
      · intro j hj1 hj2
        rcases Nat.eq_or_lt_of_le hj1 with rfl | hlt
        · exact hc
        · exact hk4 j hlt hj2
    · exact ⟨c, le_rfl, by simp [uniqueLoop, hc], hc, fun j hj1 hj2 => by omega⟩

theorem uniqueLoop_exists_free (files : List String) (dir stem suf : String) (c : Nat) :
    ∃ i, i < files.length + 1 ∧ candName dir stem suf (c + i) ∉ files := by
  by_contra hcon
  push_neg at hcon
  have hall : ∀ i, i < files.length + 1 → candName dir stem suf (c + i) ∈ files := hcon
  set L := (List.range (files.length + 1)).map (fun i => candName dir stem suf (c + i)) with hL
  have hinj : Function.Injective (fun i => candName dir stem suf (c + i)) := by
    intro a b hab
    have := candName_injective dir stem suf hab
    omega
  have hnd : L.Nodup := (List.nodup_range _).map hinj
  have hsub : L ⊆ files := by
    intro x hx
    rw [hL, List.mem_map] at hx
    obtain ⟨i, hi, rfl⟩ := hx
    exact hall i (List.mem_range.mp hi)
  have hcard1 : L.toFinset.card = files.length + 1 := by
    rw [List.toFinset_card_of_nodup hnd, hL, List.length_map, List.length_range]
  have hcard2 : L.toFinset.card ≤ files.toFinset.card :=
    Finset.card_le_card (fun x hx => List.mem_toFinset.mpr (hsub (List.mem_toFinset.mp hx)))
  have hcard3 : files.toFinset.card ≤ files.length := List.toFinset_card_le files
  omega

/-- Full characterisation of `_get_unique_filename`: the result is never an
existing path, and is either the requested path or the first free
numbered candidate `dir/stem_k·suffix`, every smaller counter colliding. -/
theorem getUniqueFilename_spec (files : List String) (dir name : String) :
    getUniqueFilename files dir name ∉ files ∧
      (getUniqueFilename files dir name = dir ++ "/" ++ name ∨
        ((dir ++ "/" ++ name) ∈ files ∧
          ∃ k, 1 ≤ k ∧
            getUniqueFilename files dir name
              = candName dir (pyStemSuffix name).1 (pyStemSuffix name).2 k ∧
            (∀ j, 1 ≤ j → j < k →
              candName dir (pyStemSuffix name).1 (pyStemSuffix name).2 j ∈ files))) := by
  by_cases hmem : (dir ++ "/" ++ name) ∈ files
  · obtain ⟨i, hi, hfree⟩ :=
      uniqueLoop_exists_free files dir (pyStemSuffix name).1 (pyStemSuffix name).2 1
    obtain ⟨k, hk1, hk2, hk3, hk4⟩ :=
      uniqueLoop_spec files dir (pyStemSuffix name).1 (pyStemSuffix name).2
        (files.length + 1) 1 ⟨i, hi, hfree⟩
    constructor
    · rw [getUniqueFilename, if_pos hmem, hk2]; exact hk3
    · right
      exact ⟨hmem, k, hk1, by rw [getUniqueFilename, if_pos hmem]; exact hk2,
        fun j hj1 hj2 => hk4 j hj1 hj2⟩
  · exact ⟨by rw [getUniqueFilename, if_neg hmem]; exact hmem,
      Or.inl (by rw [getUniqueFilename, if_neg hmem])⟩

/-! ## `CivitAIDownloader.extract_safetensors_from_zip` -/

/-- What a run of the extraction loop can hit, oracle-style. -/
inductive ZipErr where
  | badzip
  | other (msg : String)
  deriving DecidableEq

/-- Outcome of opening a zip: either `zipfile.BadZipFile` at open time, or a
member-name list together with an optional exception raised while extracting
the k-th matching member. -/
inductive ZipRes where
  | bad
  | entries (names : List String) (fail : Option (Nat × ZipErr))
  deriving DecidableEq

/-- Does a zip member name match the selection test
`n.lower().endswith('.safetensors')`? -/
def matchesSafetensors (n : String) : Bool := endsWithStr (lowerStr n) ".safetensors"

/-- `rglob('*.safetensors')` under the scratch directory: files below it whose
name ends with the (case-sensitive) extension; since the extension contains no
`/`, a whole path ends with it iff its last component does. List order models
the unspecified traversal order. (Directories whose own name carries the
extension are not modelled; the theorems' hypotheses keep extracted members
free of directory components.) -/
def rglobSafetensors (files : List String) (tempDir : String) : List String :=
  files.filter (fun p => underDir tempDir p ∧ endsWithStr p ".safetensors")

/-- The `shutil.move` loop: each source is moved to a collision-free name in
the output directory; returns the final disk, the move count, and the last
destination. -/
def moveAll (outDir : String) : Disk → List String → Nat → Option String →
    Disk × Nat × Option String
  | d, [], cnt, last => (d, cnt, last)
  | d, src :: rest, cnt, _ =>
    let dest := getUniqueFilename d.files outDir (lastComponent src)
    let d1 : Disk := { d with files := dest :: d.files.filter (· ≠ src) }
    moveAll outDir d1 rest (cnt + 1) (some dest)

/-- The extraction routine. Mirrors the source line by line:
select members case-insensitively; if none, keep the zip and report success
with no path; otherwise make the scratch directory, extract the matching
members (an extraction exception may fire partway: `BadZipFile` returns the
corrupted-archive outcome *without* removing the scratch directory, any other
exception removes it and returns the generic outcome); then move every
case-sensitive `rglob` hit into the output directory, remove the scratch
directory and the zip, and report the count and last destination. -/
def extractSafetensorsFromZip (d : Disk) (outDir zipPath : String) (zres : ZipRes) :
    Disk × Bool × String × Option String :=
  let tempDir := outDir ++ "/" ++ "temp_extract_" ++ pyStem zipPath
  match zres with
  | .bad => (d, false, "Corrupted or invalid ZIP file", none)
  | .entries names fail =>
    let safes := names.filter (fun n => matchesSafetensors n)
    if safes.isEmpty then
      (d, true, "No safetensors files in archive - keeping original ZIP", none)
    else
      let d1 := addDir d tempDir
      match fail with
      | some (k, err) =>
        if k < safes.length then
          let d2 := (safes.take k).foldl (fun a e => addFile a (tempDir ++ "/" ++ e)) d1
          match err with
          | .badzip => (d2, false, "Corrupted or invalid ZIP file", none)
          | .other msg => (rmtree d2 tempDir, false, "Extraction error: " ++ msg, none)
        else
          extractRun d1 outDir zipPath tempDir safes
      | none => extractRun d1 outDir zipPath tempDir safes
where
  /-- The non-raising tail of the routine: extract all members, move, clean up. -/
  extractRun (d1 : Disk) (outDir zipPath tempDir : String) (safes : List String) :
      Disk × Bool × String × Option String :=
    let d2 := safes.foldl (fun a e => addFile a (tempDir ++ "/" ++ e)) d1
    let sources := rglobSafetensors d2.files tempDir
    let (d3, cnt, last) := moveAll outDir d2 sources 0 none
    let d4 := removeFile (rmtree d3 tempDir) zipPath
    (d4, true, "Extracted " ++ natToDec cnt ++ " safetensors file(s)", last)

/-! ## URL construction (`urlencode` with `quote_plus`) -/

def CIVITAI_API_BASE : String := "https://civitai.com/api"

/-- Characters `urllib.parse.quote_plus` leaves unescaped. -/
def isUrlSafe (c : Char) : Bool := c.isAlphanum ∨ c = '_' ∨ c = '.' ∨ c = '-' ∨ c = '~'

/-- Upper-case hex digit. -/
def hexUpper (n : Nat) : Char := if n < 10 then Char.ofNat (48 + n) else Char.ofNat (55 + n)

/-- `urllib.parse.quote_plus`: space becomes `+`, other unsafe characters are
`%XX`-encoded bytewise over UTF-8. -/
def quotePlus (s : String) : String :=
  ⟨s.data.foldr (fun c acc =>
    (if c = ' ' then ['+']
     else if isUrlSafe c then [c]
     else (charUtf8 c).foldr (fun b a => '%' :: hexUpper (b / 16) :: hexUpper (b % 16) :: a) [])
    ++ acc) []⟩

/-- The transfer URL `{base}/download/models/{id}?{urlencode(params)}` with
`params = {type: Model, format: fmt}` plus `token` when the credential is
non-empty (`urlencode` preserves the insertion order of the dict). -/
def downloadUrl (modelId token fmt : String) : String :=
  CIVITAI_API_BASE ++ "/download/models/" ++ modelId ++ "?" ++
    "type=" ++ quotePlus "Model" ++ "&format=" ++ quotePlus fmt ++
    (if token ≠ "" then "&token=" ++ quotePlus token else "")

/-! ## World: effect oracles and the outward-call trace -/

/-- One outward call. `get_model_info` is the only code that would emit
`metadataRequest`; the download path never calls it. -/
inductive NetEvent where
  | metadataRequest (url : String)
  | headerProbe (url : String)
  | transfer (url : String) (outName : String)
  deriving DecidableEq

/-- What one `aria2c` invocation does: the binary is missing
(`FileNotFoundError`), it exits non-zero (`CalledProcessError`), or it exits
zero having created/overwritten the given `(path, size, mtime)` files in the
filesystem. -/
inductive TransferBehavior where
  | binMissing
  | exitNonzero
  | exitOk (creates : List (String × Nat × Int))
  deriving DecidableEq

/-- The downloader's world: the disk, the pending oracle answers for header
probes / aria2 runs / zip opens (consumed in order), the current clock, and
the trace of outward calls made so far. -/
structure World where
  disk : Disk
  probes : List (Option String)
  transfers : List TransferBehavior
  zips : List ZipRes
  now : Int
  trace : List NetEvent

/-- Python truthiness of an optional string (`None` and `""` are falsy). -/
def truthy : Option String → Bool
  | some s => s ≠ ""
  | none => false

/-- `CivitAIDownloader._get_filename_from_headers`: one streaming request; the
oracle yields the Content-Disposition value (`none` covers both a missing
header and a `requests` exception, which the source turns into `None`). -/
def getFilenameFromHeaders (w : World) (url : String) : World × Option String :=
  ({ w with probes := w.probes.tail, trace := w.trace ++ [.headerProbe url] },
   match w.probes.headD none with
   | some cd => parseContentDispositionFilename cd
   | none => none)

/-- `CivitAIDownloader.get_model_info`: first file descriptor's `name` from
the metadata endpoint (`resp = none` for a request failure or a missing
`files` key; inner `none` for a file descriptor without `name`). This
function exists in the source but is never called by the download path. -/
def getModelInfo (resp : Option (List (Option String))) : Option String :=
  match resp with
  | some (f :: _) => f
  | some [] => none
  | none => none

/-- Run `aria2c`, recording the transfer and consuming the next behavior. -/
def runAria (w : World) (url outName : String) : World × TransferBehavior :=
  ({ w with transfers := w.transfers.tail, trace := w.trace ++ [.transfer url outName] },
   w.transfers.headD .exitNonzero)

/-- Apply the files an `exitOk` aria2 run leaves on disk. -/
def applyCreates (d : Disk) (creates : List (String × Nat × Int)) : Disk :=
  creates.foldl (fun a c => createFile a c.1 c.2.1 c.2.2) d

/-- Python `max(files, key=mtime)`: the first element attaining the maximal
mtime (iteration keeps the current maximum unless a strictly larger one
appears). -/
def maxByMtime (mt : String → Int) : List String → Option String
  | [] => none
  | f :: rest => some (rest.foldl (fun m x => if mt x > mt m then x else m) f)

/-- `CivitAIDownloader._download_with_url` (lines 226-303): resolve the
filename (override, else header probe, else `download.bin`), de-collide it,
invoke aria2 pinned to that name, then locate the artifact - the expected path
if present, otherwise the most recently modified direct child of the output
directory touched within the last 120 seconds - and validate it. -/
def downloadWithUrl (w : World) (outDir url : String) (preferFilename : Option String) :
    World × (Bool × Option String) :=
  let probed :=
    if truthy preferFilename then (w, preferFilename)
    else getFilenameFromHeaders w url
  let w1 := probed.1
  let filename := if truthy probed.2 then probed.2.getD "" else "download.bin"
  let filePath := getUniqueFilename w1.disk.files outDir filename
  let ran := runAria w1 url (lastComponent filePath)
  let w2 := ran.1
  match ran.2 with
  | .binMissing => (w2, (false, none))
  | .exitNonzero => (w2, (false, none))
  | .exitOk creates =>
    let d1 := applyCreates w2.disk creates
    let w3 := { w2 with disk := d1 }
    let actual :=
      if filePath ∈ d1.files then some filePath
      else maxByMtime d1.mtime
        (d1.files.filter (fun f => childOf outDir f ∧ w3.now - d1.mtime f < 120))
    match actual with
    | none => (w3, (false, none))
    | some a => if (validateFile d1 a).1 then (w3, (true, some a)) else (w3, (false, none))

/-- `CivitAIDownloader.process_downloaded_file`. -/
def processDownloadedFile (w : World) (outDir p : String) : World × (Bool × String × Option String) :=
  if p ∉ w.disk.files then (w, (false, "Downloaded file not found", none))
  else if lowerStr (pySuffix p) = ".zip" then
    let w2 : World := { w with zips := w.zips.tail }
    let r := extractSafetensorsFromZip w.disk outDir p (w.zips.headD .bad)
    ({ w2 with disk := r.1 }, (r.2.1, r.2.2.1, r.2.2.2))
  else if lowerStr (pySuffix p) = ".safetensors" then (w, (true, "File ready to use", some p))
  else (w, (true, "File downloaded successfully", some p))

/-- One attempt of the orchestrator (lines 323-331 and 352-359): fetch, then
process; `some finalPath` on full success (`final_path or path`), `none` on
any failure. -/
def attemptStage (w : World) (outDir url : String) (name : Option String) :
    World × Option String :=
  let dl := downloadWithUrl w outDir url name
  match dl.2 with
  | (true, some p) =>
    let pr := processDownloadedFile dl.1 outDir p
    match pr.2 with
    | (true, _, finalPath) => (pr.1, some (finalPath.getD p))
    | _ => (pr.1, none)
  | _ => (dl.1, none)

/-- The fallback-name derivation and stale-target cleanup (lines 340-350):
probe the headers for a name, coerce it to a `_diffusers.zip` name, fall back
to `prefer_filename`'s stem, and clean up any stale target. Returns the
post-cleanup world and the chosen name. -/
def fallbackNameStep (w : World) (outDir : String) (preferFilename : Option String)
    (zipUrl : String) : World × Option String :=
  let probed := getFilenameFromHeaders w zipUrl
  let h1 := match probed.2 with
    | some h =>
      if h ≠ "" ∧ ¬ endsWithStr (lowerStr h) ".zip" then some (pyStem h ++ "_diffusers.zip")
      else some h
    | none => none
  let h2 := if ¬ truthy h1 ∧ truthy preferFilename then
      some (pyStem (preferFilename.getD "") ++ "_diffusers.zip")
    else h1
  let w2 := if truthy h2 then
      { probed.1 with disk := cleanupIncompleteDownload probed.1.disk (outDir ++ "/" ++ h2.getD "") }
    else probed.1
  (w2, h2)

def diffusersFallback (w : World) (outDir modelId token : String)
    (preferFilename : Option String) : World × (Bool × Option String) :=
  let zipUrl := downloadUrl modelId token "Diffusers"
  let wh := fallbackNameStep w outDir preferFilename zipUrl
  let a2 := attemptStage wh.1 outDir zipUrl wh.2
  match a2.2 with
  | some p => (a2.1, (true, some p))
  | none => (a2.1, (false, none))

/-- `CivitAIDownloader.download_with_aria2`: SafeTensor attempt (cleaning up a
stale `prefer_filename` target first), then the Diffusers-ZIP fallback.
The `force` parameter is accepted and never read, exactly as in the source. -/
def downloadWithAria2 (w : World) (outDir modelId token : String)
    (preferFilename : Option String) (force : Bool) : World × (Bool × Option String) :=
  let safetensorUrl := downloadUrl modelId token "SafeTensor"
  let w1 := if truthy preferFilename then
      { w with disk := cleanupIncompleteDownload w.disk (outDir ++ "/" ++ preferFilename.getD "") }
    else w
  let a1 := attemptStage w1 outDir safetensorUrl preferFilename
  match a1.2 with
  | some p => (a1.1, (true, some p))
  | none => diffusersFallback a1.1 outDir modelId token preferFilename

/-! ## Claim theorems -/

/-- C3: the Validator reports valid exactly when the file exists, no sibling
`.aria2` marker exists, and the size meets the 1 MB threshold, the checks
firing in that order; a sibling marker forces invalid regardless of the
file's own size, and a sub-threshold file is reported invalid with a reason
containing its measured size (formatted to two decimals in MB). -/
theorem c3_validate_file_checks (d : Disk) (p : String) :
    ((validateFile d p).1 = true ↔
      p ∈ d.files ∧ (p ++ ".aria2") ∉ d.files ∧ 1048576 ≤ d.size p) ∧
    ((p ++ ".aria2") ∈ d.files → (validateFile d p).1 = false) ∧
    (p ∈ d.files → (p ++ ".aria2") ∉ d.files → d.size p < 1048576 →
      validateFile d p
        = (false, "File suspiciously small (" ++ fmtMB (d.size p) 2 ++ "MB)") ∧
      (fmtMB (d.size p) 2).data <:+: (validateFile d p).2.data) := by
  by_cases h1 : p ∈ d.files
  · by_cases h2 : (p ++ ".aria2") ∈ d.files
    · refine ⟨?_, fun _ => ?_, fun _ h2' => absurd h2 h2'⟩
      · simp [validateFile, h1, h2]
      · simp [validateFile, h1, h2]
    · by_cases h3 : d.size p < 1048576
      · refine ⟨?_, fun h2' => absurd h2' h2, fun _ _ _ => ⟨?_, ?_⟩⟩
        · constructor
          · intro hv; exfalso; simp [validateFile, h1, h2, h3] at hv
          · intro hr; omega
        · simp [validateFile, h1, h2, h3]
        · refine ⟨"File suspiciously small (".data, "MB)".data, ?_⟩
          simp [validateFile, h1, h2, h3, String.data_append]
      · refine ⟨?_, fun h2' => absurd h2' h2, fun _ _ h3' => absurd h3' h3⟩
        simp [validateFile, h1, h2, h3]
        omega
  · refine ⟨?_, fun _ => ?_, fun h1' => absurd h1' h1⟩
    · simp [validateFile, h1]
    · simp [validateFile, h1]

/-- Example disk for the validator witness: a healthy file, a file with a
sibling aria2 marker, and a sub-threshold (500000-byte) file. -/
def diskC3 : Disk :=
  ⟨["out/a.safetensors", "out/b.safetensors", "out/b.safetensors.aria2", "out/small.safetensors"],
   ["out"],
   fun p => if p = "out/small.safetensors" then 512000 else 5242880,
   fun _ => 0⟩

theorem c3_validate_file_checks_witness :
    validateFile diskC3 "out/small.safetensors" = (false, "File suspiciously small (0.49MB)") ∧
    (validateFile diskC3 "out/b.safetensors").1 = false ∧
    (validateFile diskC3 "out/a.safetensors").1 = true := by
  refine ⟨?_, ?_, ?_⟩
  · have h := ((c3_validate_file_checks diskC3 "out/small.safetensors").2.2
      (by decide) (by decide) (by decide)).1
    rw [h]; decide
  · exact (c3_validate_file_checks diskC3 "out/b.safetensors").2.1 (by decide)
  · exact (c3_validate_file_checks diskC3 "out/a.safetensors").1.mpr
      ⟨by decide, by decide, by decide⟩

/-- C5: a container with zero entries matching the payload extension
(case-insensitively) leaves the disk untouched - in particular the original
container file stays - and reports a successful outcome with no extractions
and no new canonical path, whatever the extraction oracle would have done. -/
theorem c5_zip_zero_matches (d : Disk) (outDir zipPath : String) (names : List String)
    (fail : Option (Nat × ZipErr))
    (h : names.filter (fun n => matchesSafetensors n) = []) :
    extractSafetensorsFromZip d outDir zipPath (.entries names fail)
      = (d, true, "No safetensors files in archive - keeping original ZIP", none) := by
  simp [extractSafetensorsFromZip, h]

theorem c5_zip_zero_matches_witness :
    extractSafetensorsFromZip
        (⟨["out/m.zip"], ["out"], fun _ => 0, fun _ => 0⟩ : Disk) "out" "out/m.zip"
        (.entries ["readme.txt", "weights.bin"] none)
      = (⟨["out/m.zip"], ["out"], fun _ => 0, fun _ => 0⟩,
         true, "No safetensors files in archive - keeping original ZIP", none) :=
  c5_zip_zero_matches _ "out" "out/m.zip" ["readme.txt", "weights.bin"] none (by decide)

/-- C7 counterexample: the claim says the scratch directory is removed on
*every* exception path including the corrupted-archive one. Concretely, when
`BadZipFile` fires while extracting the second member (after the scratch
directory was created and one member extracted), the code returns the
corrupted-archive outcome with the scratch directory and its contents still
on disk. -/
theorem c7_scratch_cleanup_counterexample :
    (extractSafetensorsFromZip (⟨["out/m.zip"], ["out"], fun _ => 0, fun _ => 0⟩ : Disk)
        "out" "out/m.zip"
        (.entries ["a.safetensors", "b.safetensors"] (some (1, .badzip)))).2.2.1
      = "Corrupted or invalid ZIP file" ∧
    "out/temp_extract_m" ∈
      (extractSafetensorsFromZip (⟨["out/m.zip"], ["out"], fun _ => 0, fun _ => 0⟩ : Disk)
        "out" "out/m.zip"
        (.entries ["a.safetensors", "b.safetensors"] (some (1, .badzip)))).1.dirs ∧
    "out/temp_extract_m/a.safetensors" ∈
      (extractSafetensorsFromZip (⟨["out/m.zip"], ["out"], fun _ => 0, fun _ => 0⟩ : Disk)
        "out" "out/m.zip"
        (.entries ["a.safetensors", "b.safetensors"] (some (1, .badzip)))).1.files := by
  refine ⟨?_, ?_, ?_⟩ <;> decide

/-- C7 (amended): a structurally invalid container is reported with the
distinct corrupted-archive message (different from the generic
`Extraction error: ...` outcome); when `BadZipFile` fires at open time no
scratch directory has been created, so none is left; and on the
generic-exception path the scratch directory is removed before the error
outcome is returned. On a corrupted-archive exception raised mid-extraction,
however, the scratch directory is NOT removed (see the counterexample). -/
theorem c7_corrupt_vs_generic_cleanup (d : Disk) (outDir zipPath : String)
    (names : List String) (k : Nat) (msg : String)
    (hne : names.filter (fun n => matchesSafetensors n) ≠ [])
    (hk : k < (names.filter (fun n => matchesSafetensors n)).length) :
    extractSafetensorsFromZip d outDir zipPath .bad
      = (d, false, "Corrupted or invalid ZIP file", none) ∧
    ((extractSafetensorsFromZip d outDir zipPath
        (.entries names (some (k, .other msg)))).2.1 = false ∧
      (extractSafetensorsFromZip d outDir zipPath
        (.entries names (some (k, .other msg)))).2.2.1 = "Extraction error: " ++ msg ∧
      (outDir ++ "/" ++ "temp_extract_" ++ pyStem zipPath) ∉
        (extractSafetensorsFromZip d outDir zipPath
          (.entries names (some (k, .other msg)))).1.dirs ∧
      (∀ p ∈ (extractSafetensorsFromZip d outDir zipPath
          (.entries names (some (k, .other msg)))).1.files,
        underDir (outDir ++ "/" ++ "temp_extract_" ++ pyStem zipPath) p = false)) ∧
    "Extraction error: " ++ msg ≠ "Corrupted or invalid ZIP file" := by
  have hemp : ¬ (names.filter (fun n => matchesSafetensors n)).isEmpty := by
    simpa [List.isEmpty_iff] using hne
  refine ⟨rfl, ⟨?_, ?_, ?_, ?_⟩, ?_⟩
  · simp [extractSafetensorsFromZip, hemp, hk]
  · simp [extractSafetensorsFromZip, hemp, hk]
  · intro hmem
    simp [extractSafetensorsFromZip, hemp, hk, rmtree, List.mem_filter] at hmem
  · intro p hmem
    simp [extractSafetensorsFromZip, hemp, hk, rmtree, List.mem_filter] at hmem
    exact hmem.2
  · intro hcon
    have h2 := congrArg String.data hcon
    simp [String.data_append] at h2

theorem c7_corrupt_vs_generic_cleanup_witness :
    extractSafetensorsFromZip (⟨["out/m.zip"], ["out"], fun _ => 0, fun _ => 0⟩ : Disk)
        "out" "out/m.zip" .bad
      = (⟨["out/m.zip"], ["out"], fun _ => 0, fun _ => 0⟩, false,
         "Corrupted or invalid ZIP file", none) ∧
    "out/temp_extract_m" ∉
      (extractSafetensorsFromZip (⟨["out/m.zip"], ["out"], fun _ => 0, fun _ => 0⟩ : Disk)
        "out" "out/m.zip"
        (.entries ["a.safetensors", "b.safetensors"] (some (1, .other "boom")))).1.dirs :=
  ⟨(c7_corrupt_vs_generic_cleanup
      (⟨["out/m.zip"], ["out"], fun _ => 0, fun _ => 0⟩ : Disk) "out" "out/m.zip"
      ["a.safetensors", "b.safetensors"] 1 "boom" (by decide) (by decide)).1,
   (c7_corrupt_vs_generic_cleanup
      (⟨["out/m.zip"], ["out"], fun _ => 0, fun _ => 0⟩ : Disk) "out" "out/m.zip"
      ["a.safetensors", "b.safetensors"] 1 "boom" (by decide) (by decide)).2.1.2.2.1⟩

/-! ## Lemmas for the Content-Disposition claim -/

theorem takeWhile_append_stop {p : Char → Bool} :
    ∀ (l₁ : List Char) (c : Char) (l₂ : List Char),
      (∀ x ∈ l₁, p x = true) → p c = false →
      (l₁ ++ c :: l₂).takeWhile p = l₁ := by
  intro l₁
  induction l₁ with
  | nil => intro c l₂ _ h2; simp [List.takeWhile_cons, h2]
  | cons x xs ih =>
    intro c l₂ h1 h2
    have hx := h1 x (by simp)
    simp [List.takeWhile_cons, hx, ih c l₂ (fun y hy => h1 y (by simp [hy])) h2]

theorem scanFor_cons_none (m : List Char → Option (List Char)) (c : Char) (cs : List Char)
    (h : m (c :: cs) = none) : scanFor m (c :: cs) = scanFor m cs := by
  simp [scanFor, h]

/-- C4: when a Content-Disposition value contains both the extended
`filename*=charset''value` form and the plain `filename="value"` form, the
parser returns the name derived from the extended form, percent-decoding it
before use; the conjunct on `unquote` exhibits `%20` decoding to a space.
The hypotheses make both forms genuinely present and well-formed: the plain
value is non-empty and quote-free, the encoded value is non-empty and
semicolon-free. -/
theorem c4_extended_form_first (pv qv : String)
    (hp1 : pv ≠ "") (hp2 : '"' ∉ pv.data) (hq1 : qv ≠ "") (hq2 : ';' ∉ qv.data) :
    parseContentDispositionFilename
        ("attachment; filename*=utf-8''" ++ qv ++ "; filename=\"" ++ pv ++ "\"")
      = some (unquote qv) ∧
    unquote "ext%20name.txt" = "ext name.txt" := by
  refine ⟨?_, by decide⟩
  have hdata : ("attachment; filename*=utf-8''" ++ qv ++ "; filename=\"" ++ pv ++ "\"").data
      = 'a':: 't':: 't':: 'a':: 'c':: 'h':: 'm':: 'e':: 'n':: 't':: ';':: ' '::
        'f':: 'i':: 'l':: 'e':: 'n':: 'a':: 'm':: 'e':: '*':: '=':: 'u':: 't':: 'f':: '-':: '8':: '\'':: '\''::
        (qv.data ++ (';':: ' ':: 'f':: 'i':: 'l':: 'e':: 'n':: 'a':: 'm':: 'e':: '=':: '"'::
          (pv.data ++ ['"']))) := by
    simp only [String.data_append, List.append_assoc]
    rfl
  have hne : ("attachment; filename*=utf-8''" ++ qv ++ "; filename=\"" ++ pv ++ "\"") ≠ "" := by
    intro hcon
    have h2 := congrArg String.data hcon
    rw [hdata] at h2
    simp at h2
  have hqd : qv.data ≠ [] := fun hc => hq1 (String.ext (by simp [hc]))
  have henc : (qv.data ++ (';':: ' ':: 'f':: 'i':: 'l':: 'e':: 'n':: 'a':: 'm':: 'e':: '=':: '"'::
      (pv.data ++ ['"']))).takeWhile (· ≠ ';') = qv.data :=
    takeWhile_append_stop qv.data ';' _
      (fun x hx => by simp; exact fun hc => hq2 (hc ▸ hx)) (by simp)
  have hmatch : matchExtAt ('f':: 'i':: 'l':: 'e':: 'n':: 'a':: 'm':: 'e':: '*':: '=':: 'u':: 't':: 'f':: '-':: '8':: '\'':: '\''::
      (qv.data ++ (';':: ' ':: 'f':: 'i':: 'l':: 'e':: 'n':: 'a':: 'm':: 'e':: '=':: '"'::
        (pv.data ++ ['"'])))) = some qv.data := by
    show (let enc := (qv.data ++ (';':: ' ':: 'f':: 'i':: 'l':: 'e':: 'n':: 'a':: 'm':: 'e':: '=':: '"'::
        (pv.data ++ ['"']))).takeWhile (· ≠ ';');
      if enc.isEmpty then none else some enc) = some qv.data
    rw [henc]
    simp [List.isEmpty_iff, hqd]
  rw [parseContentDispositionFilename, if_neg hne, hdata]
  rw [scanFor_cons_none _ _ _ rfl, scanFor_cons_none _ _ _ rfl, scanFor_cons_none _ _ _ rfl,
      scanFor_cons_none _ _ _ rfl, scanFor_cons_none _ _ _ rfl, scanFor_cons_none _ _ _ rfl,
      scanFor_cons_none _ _ _ rfl, scanFor_cons_none _ _ _ rfl, scanFor_cons_none _ _ _ rfl,
      scanFor_cons_none _ _ _ rfl, scanFor_cons_none _ _ _ rfl, scanFor_cons_none _ _ _ rfl]
  rw [scanFor, hmatch]

theorem c4_extended_form_first_witness :
    parseContentDispositionFilename
        "attachment; filename*=utf-8''ext%20name.txt; filename=\"plain name.txt\""
      = some "ext name.txt" := by
  have h := (c4_extended_form_first "plain name.txt" "ext%20name.txt"
    (by decide) (by decide) (by decide) (by decide))
  have h1 := h.1
  have h2 := h.2
  rw [h2] at h1
  exact h1

/-! ## Path-shape lemmas for the extraction claim -/

theorem noSlash_natToDecAux : ∀ fuel n, '/' ∉ natToDecAux fuel n := by
  intro fuel
  induction fuel with
  | zero => intro n; simp [natToDecAux]
  | succ fuel ih =>
    intro n
    by_cases h0 : n = 0
    · simp [natToDecAux, h0]
    · simp only [natToDecAux, h0, if_false, List.mem_append, List.mem_singleton]
      rintro (h | h)
      · exact ih _ h
      · have h1 := congrArg Char.toNat h
        rw [toNat_digitChar _ (Nat.mod_lt _ (by norm_num))] at h1
        have h47 : ('/' : Char).toNat = 47 := rfl
        omega

theorem pyStemSuffix_chars (name : String) (c : Char) :
    (c ∈ (pyStemSuffix name).1.data → c ∈ name.data) ∧
    (c ∈ (pyStemSuffix name).2.data → c = '.' ∨ c ∈ name.data) := by
  simp only [pyStemSuffix]
  split_ifs with h
  · constructor
    · intro hc
      exact List.mem_of_mem_take hc
    · intro hc
      simp only [List.mem_cons] at hc
      rcases hc with hc | hc
      · exact Or.inl hc
      · right
        have h2 : c ∈ name.data.reverse.takeWhile (· ≠ '.') := by
          simpa using hc
        have h3 := (List.takeWhile_prefix _).subset h2
        simpa using h3
  · exact ⟨fun hc => hc, fun hc => by simp at hc⟩

theorem noSlash_natToDec (n : Nat) : '/' ∉ (natToDec n).data := by
  unfold natToDec
  by_cases h0 : n = 0
  · simp only [h0, if_true]
    decide
  · simp only [h0, if_false]
    exact noSlash_natToDecAux n n

/-- Paths of the form `dir ++ "/" ++ tail` determine their tail. -/
theorem childPath_inj (dir a b : String) (h : dir ++ "/" ++ a = dir ++ "/" ++ b) : a = b := by
  have h2 : dir.data ++ ('/' :: a.data) = dir.data ++ ('/' :: b.data) := by
    have h3 := congrArg String.data h
    simpa [String.data_append] using h3
  have h3 := List.append_cancel_left h2
  exact String.ext (by simpa using h3)

/-- The result of `_get_unique_filename` for a slash-free name is a direct
child of the output directory. -/
theorem getUniqueFilename_child (files : List String) (outDir name : String)
    (h : '/' ∉ name.data) :
    ∃ t : String, '/' ∉ t.data ∧ getUniqueFilename files outDir name = outDir ++ "/" ++ t := by
  rcases (getUniqueFilename_spec files outDir name).2 with heq | ⟨_, k, _, heq, _⟩
  · exact ⟨name, h, heq⟩
  · refine ⟨(pyStemSuffix name).1 ++ "_" ++ natToDec k ++ (pyStemSuffix name).2, ?_, ?_⟩
    · intro hc
      simp only [String.data_append, List.mem_append] at hc
      rcases hc with ((hc | hc) | hc) | hc
      · exact h ((pyStemSuffix_chars name '/').1 hc)
      · simp at hc
      · exact noSlash_natToDec k hc
      · rcases (pyStemSuffix_chars name '/').2 hc with hc | hc
        · exact absurd hc (by decide)
        · exact h hc
    · rw [heq, candName]
      apply String.ext
      simp [String.data_append]

theorem lastComponent_append (x e : String) (h : '/' ∉ e.data) :
    lastComponent (x ++ "/" ++ e) = e := by
  apply String.ext
  show ((x ++ "/" ++ e).data.reverse.takeWhile (· ≠ '/')).reverse = e.data
  have hd : (x ++ "/" ++ e).data.reverse = e.data.reverse ++ '/' :: x.data.reverse := by
    simp [String.data_append]
  rw [hd, takeWhile_append_stop e.data.reverse '/' x.data.reverse
    (fun y hy => by simp; exact fun hc => h (hc ▸ (List.mem_reverse.mp hy))) (by simp)]
  simp

theorem underDir_append (dir t : String) : underDir dir (dir ++ "/" ++ t) = true := by
  unfold underDir startsWithStr
  rw [List.isPrefixOf_iff_prefix]
  have : dir ++ "/" ++ t = (dir ++ "/") ++ t := by rw [String.append_assoc]
  rw [this, String.data_append]
  exact List.prefix_append _ _

theorem not_underDir_child (outDir tname t : String) (ht : '/' ∉ t.data) :
    underDir (outDir ++ "/" ++ tname) (outDir ++ "/" ++ t) = false := by
  unfold underDir startsWithStr
  rw [Bool.eq_false_iff]
  intro hcon
  rw [List.isPrefixOf_iff_prefix] at hcon
  have hshape : (outDir ++ "/" ++ tname ++ "/").data
      = (outDir.data ++ ['/']) ++ (tname.data ++ ['/']) := by
    simp [String.data_append]
  have hshape2 : (outDir ++ "/" ++ t).data = (outDir.data ++ ['/']) ++ t.data := by
    simp [String.data_append]
  rw [hshape, hshape2] at hcon
  have h2 := (List.prefix_append_right_inj (outDir.data ++ ['/'])).mp hcon
  have h3 : '/' ∈ t.data := h2.subset (by simp)
  exact ht h3

theorem endsWith_child (x e suf : String) (h : endsWithStr e suf = true) :
    endsWithStr (x ++ "/" ++ e) suf = true := by
  unfold endsWithStr at h ⊢
  rw [List.isSuffixOf_iff_suffix] at h ⊢
  have : (x ++ "/" ++ e).data = (x.data ++ ['/']) ++ e.data := by simp [String.data_append]
  rw [this]
  exact h.trans (List.suffix_append _ _)

theorem getLast?_cons_ne_nil {α : Type} (a : α) (l : List α) (h : l ≠ []) :
    (a :: l).getLast? = l.getLast? := by
  cases l with
  | nil => exact absurd rfl h
  | cons b t => exact List.getLast?_cons_cons

theorem moveAll_spec (outDir : String) :
    ∀ (srcs : List String) (d : Disk) (cnt : Nat) (last : Option String),
      (∀ s ∈ srcs, s ∈ d.files) →
      srcs.Nodup →
      (∀ s ∈ srcs, ∃ tail : String, s = outDir ++ "/" ++ tail ∧ '/' ∈ tail.data ∧
        '/' ∉ (lastComponent s).data) →
      ∃ dests : List String,
        dests.length = srcs.length ∧
        dests.Nodup ∧
        (∀ x ∈ dests, (∃ t, '/' ∉ t.data ∧ x = outDir ++ "/" ++ t) ∧ x ∉ d.files) ∧
        (moveAll outDir d srcs cnt last).1.files
          = dests.reverse ++ d.files.filter (fun p => decide (p ∉ srcs)) ∧
        (moveAll outDir d srcs cnt last).1.dirs = d.dirs ∧
        (moveAll outDir d srcs cnt last).2.1 = cnt + srcs.length ∧
        (dests = [] → (moveAll outDir d srcs cnt last).2.2 = last) ∧
        (dests ≠ [] → (moveAll outDir d srcs cnt last).2.2 = dests.getLast?) := by
  intro srcs
  induction srcs with
  | nil =>
    intro d cnt last _ _ _
    refine ⟨[], rfl, List.nodup_nil, by simp, ?_, rfl, rfl, fun _ => rfl, fun hc => absurd rfl hc⟩
    simp [moveAll]
  | cons s rest ih =>
    intro d cnt last hmem hnd hshape
    obtain ⟨tail, hs_eq, hs_slash, hs_name⟩ := hshape s (by simp)
    set dest := getUniqueFilename d.files outDir (lastComponent s) with hdest_def
    obtain ⟨t, ht_noslash, ht_eq⟩ :=
      getUniqueFilename_child d.files outDir (lastComponent s) hs_name
    have hdest_notin : dest ∉ d.files := (getUniqueFilename_spec d.files outDir _).1
    -- the destination is never one of the slash-shaped sources
    have hdest_ne_shaped : ∀ s', (∃ tl : String, s' = outDir ++ "/" ++ tl ∧ '/' ∈ tl.data) →
        dest ≠ s' := by
      rintro s' ⟨tl, rfl, htl⟩ hcon
      rw [hdest_def, ht_eq] at hcon
      exact ht_noslash ((childPath_inj outDir t tl hcon) ▸ htl)
    set d1 : Disk := { d with files := dest :: d.files.filter (· ≠ s) } with hd1_def
    have hmem1 : ∀ s' ∈ rest, s' ∈ d1.files := by
      intro s' hs'
      have h1 : s' ∈ d.files := hmem s' (by simp [hs'])
      have h2 : s' ≠ s := by
        intro hc; exact (List.nodup_cons.mp hnd).1 (hc ▸ hs')
      simp [hd1_def, List.mem_filter, h1, h2]
    obtain ⟨dests', hlen, hnd', hprops, hfiles, hdirs, hcnt, hlast_nil, hlast_ne⟩ :=
      ih d1 (cnt + 1) (some dest) hmem1 (List.nodup_cons.mp hnd).2
        (fun s' hs' => hshape s' (by simp [hs']))
    have hdest_notin_dests' : dest ∉ dests' := by
      intro hc
      have := (hprops dest hc).2
      simp [hd1_def] at this
    have hstep : moveAll outDir d (s :: rest) cnt last
        = moveAll outDir d1 rest (cnt + 1) (some dest) := by
      simp [moveAll, hd1_def, hdest_def]
    refine ⟨dest :: dests', by simp [hlen], List.nodup_cons.mpr ⟨hdest_notin_dests', hnd'⟩,
      ?_, ?_, ?_, ?_, by simp, ?_⟩
    · intro x hx
      rcases List.mem_cons.mp hx with rfl | hx'
      · exact ⟨⟨t, ht_noslash, ht_eq⟩, hdest_notin⟩
      · obtain ⟨hxshape, hx_notin1⟩ := hprops x hx'
        refine ⟨hxshape, ?_⟩
        intro hxin
        apply hx_notin1
        have hx_ne_s : x ≠ s := by
          obtain ⟨tx, htx_noslash, rfl⟩ := hxshape
          intro hc
          rw [hs_eq] at hc
          exact htx_noslash ((childPath_inj outDir tx tail hc) ▸ hs_slash)
        simp [hd1_def, List.mem_filter, hxin, hx_ne_s]
    · rw [hstep, hfiles]
      have hd1files : d1.files.filter (fun p => decide (p ∉ rest))
          = dest :: (d.files.filter (fun p => decide (p ∉ s :: rest))) := by
        have hdest_notin_rest : dest ∉ rest := by
          intro hc
          obtain ⟨tl, heq, hsl, _⟩ := hshape dest (by simp [hc])
          exact hdest_ne_shaped dest ⟨tl, heq, hsl⟩ rfl
        simp only [hd1_def, List.filter_cons]
        rw [if_pos (by simpa using hdest_notin_rest)]
        congr 1
        rw [List.filter_filter]
        apply List.filter_congr
        intro x _
        simp only [List.mem_cons, not_or]
        by_cases h1 : x = s <;> by_cases h2 : x ∈ rest <;> simp [h1, h2]
      rw [hd1files]
      simp [List.append_assoc]
    · rw [hstep, hdirs]
    · rw [hstep, hcnt]
      simp only [List.length_cons]
      omega
    · intro _
      rw [hstep]
      cases hdests' : dests' with
      | nil =>
        rw [hdests'] at hlast_nil
        rw [hlast_nil rfl]
        rfl
      | cons a l =>
        rw [hdests'] at hlast_ne
        rw [hlast_ne (by simp)]
        rw [getLast?_cons_ne_nil dest (a :: l) (by simp)]

theorem foldl_addFile_spec (f : String → String) :
    ∀ (es : List String) (d : Disk),
      (∀ e ∈ es, f e ∉ d.files) → (es.map f).Nodup →
      ((es.foldl (fun a e => addFile a (f e)) d).files = (es.map f).reverse ++ d.files ∧
       (es.foldl (fun a e => addFile a (f e)) d).dirs = d.dirs ∧
       (es.foldl (fun a e => addFile a (f e)) d).size = d.size ∧
       (es.foldl (fun a e => addFile a (f e)) d).mtime = d.mtime) := by
  intro es
  induction es with
  | nil => intro d _ _; exact ⟨by simp, rfl, rfl, rfl⟩
  | cons e rest ih =>
    intro d hfresh hnd
    have hnotin : f e ∉ d.files := hfresh e (by simp)
    have hstep : addFile d (f e) = { d with files := f e :: d.files } := by
      simp [addFile, hnotin]
    have hfresh1 : ∀ e' ∈ rest, f e' ∉ (addFile d (f e)).files := by
      intro e' he'
      rw [hstep]
      simp only [List.mem_cons, not_or]
      constructor
      · intro hc
        have : f e ∈ rest.map f := by
          rw [← hc]; exact List.mem_map_of_mem f he'
        exact (List.nodup_cons.mp (by simpa using hnd)).1 this
      · exact hfresh e' (by simp [he'])
    obtain ⟨h1, h2, h3, h4⟩ := ih (addFile d (f e)) hfresh1 (by simpa using (List.nodup_cons.mp (by simpa using hnd)).2)
    refine ⟨?_, ?_, ?_, ?_⟩
    · show (List.foldl (fun a e => addFile a (f e)) (addFile d (f e)) rest).files = _
      rw [h1, hstep]
      simp
    · show (List.foldl (fun a e => addFile a (f e)) (addFile d (f e)) rest).dirs = _
      rw [h2, hstep]
    · show (List.foldl (fun a e => addFile a (f e)) (addFile d (f e)) rest).size = _
      rw [h3, hstep]
    · show (List.foldl (fun a e => addFile a (f e)) (addFile d (f e)) rest).mtime = _
      rw [h4, hstep]

theorem noSlash_lastComponent (p : String) : '/' ∉ (lastComponent p).data := by
  intro hc
  have h2 : '/' ∈ p.data.reverse.takeWhile (· ≠ '/') := by
    simpa [lastComponent] using hc
  have h3 := List.takeWhile_prefix (l := p.data.reverse) (· ≠ '/')
  have h4 : ∀ x ∈ p.data.reverse.takeWhile (· ≠ '/'), (x ≠ '/') := by
    intro x hx
    have := List.mem_takeWhile_imp hx
    simpa using this
  exact (h4 '/' h2) rfl

theorem extractRun_eq (d1 : Disk) (outDir zipPath tempDir : String) (safes : List String) :
    extractSafetensorsFromZip.extractRun d1 outDir zipPath tempDir safes
      = (removeFile (rmtree (moveAll outDir
            (safes.foldl (fun a e => addFile a (tempDir ++ "/" ++ e)) d1)
            (rglobSafetensors
              (safes.foldl (fun a e => addFile a (tempDir ++ "/" ++ e)) d1).files tempDir)
            0 none).1 tempDir) zipPath,
         true,
         "Extracted " ++ natToDec (moveAll outDir
            (safes.foldl (fun a e => addFile a (tempDir ++ "/" ++ e)) d1)
            (rglobSafetensors
              (safes.foldl (fun a e => addFile a (tempDir ++ "/" ++ e)) d1).files tempDir)
            0 none).2.1 ++ " safetensors file(s)",
         (moveAll outDir
            (safes.foldl (fun a e => addFile a (tempDir ++ "/" ++ e)) d1)
            (rglobSafetensors
              (safes.foldl (fun a e => addFile a (tempDir ++ "/" ++ e)) d1).files tempDir)
            0 none).2.2) := rfl

theorem extract_entries_eq (d : Disk) (outDir zipPath : String) (names : List String)
    (hne : names.filter (fun n => matchesSafetensors n) ≠ []) :
    extractSafetensorsFromZip d outDir zipPath (.entries names none)
      = extractSafetensorsFromZip.extractRun
          (addDir d (outDir ++ "/" ++ "temp_extract_" ++ pyStem zipPath))
          outDir zipPath (outDir ++ "/" ++ "temp_extract_" ++ pyStem zipPath)
          (names.filter (fun n => matchesSafetensors n)) := by
  have hemp : ¬ (names.filter (fun n => matchesSafetensors n)).isEmpty := by
    simpa [List.isEmpty_iff] using hne
  simp [extractSafetensorsFromZip, hemp]

theorem extractRun_spec (d : Disk) (outDir zipPath tempDir tname : String)
    (safes : List String)
    (htd : tempDir = outDir ++ "/" ++ tname)
    (htn : '/' ∉ tname.data)
    (h1 : safes ≠ [])
    (h2 : ∀ e ∈ safes, endsWithStr e ".safetensors" = true)
    (h3 : ∀ e ∈ safes, '/' ∉ e.data)
    (h4 : safes.Nodup)
    (h5 : ∀ p ∈ d.files, underDir tempDir p = false)
    (h6 : zipPath ∈ d.files) :
    ∃ dests : List String,
      dests.length = safes.length ∧
      dests.Nodup ∧
      (∀ x ∈ dests, x ∉ d.files) ∧
      (extractSafetensorsFromZip.extractRun (addDir d tempDir) outDir zipPath tempDir safes).1.files
        = dests.reverse ++ d.files.filter (· ≠ zipPath) ∧
      (extractSafetensorsFromZip.extractRun (addDir d tempDir) outDir zipPath tempDir safes).2.1
        = true ∧
      (extractSafetensorsFromZip.extractRun (addDir d tempDir) outDir zipPath tempDir safes).2.2.1
        = "Extracted " ++ natToDec safes.length ++ " safetensors file(s)" ∧
      dests ≠ [] ∧
      (extractSafetensorsFromZip.extractRun (addDir d tempDir) outDir zipPath tempDir safes).2.2.2
        = dests.getLast? ∧
      tempDir ∉
        (extractSafetensorsFromZip.extractRun (addDir d tempDir) outDir zipPath tempDir safes).1.dirs ∧
      (∀ p ∈ (extractSafetensorsFromZip.extractRun (addDir d tempDir) outDir zipPath tempDir safes).1.files,
        underDir tempDir p = false) ∧
      zipPath ∉
        (extractSafetensorsFromZip.extractRun (addDir d tempDir) outDir zipPath tempDir safes).1.files := by
  subst htd
  set f : String → String := fun e => (outDir ++ "/" ++ tname) ++ "/" ++ e with hf
  have hf_inj : Function.Injective f := by
    intro a b hab
    exact childPath_inj (outDir ++ "/" ++ tname) a b hab
  have hmap_nd : (safes.map f).Nodup := h4.map hf_inj
  have hunder : ∀ e, underDir (outDir ++ "/" ++ tname) (f e) = true :=
    fun e => underDir_append (outDir ++ "/" ++ tname) e
  have hfresh : ∀ e ∈ safes, f e ∉ d.files := by
    intro e _ hc
    have h7 := h5 (f e) hc
    rw [hunder e] at h7
    exact absurd h7 (by simp)
  have hfold := foldl_addFile_spec f safes (addDir d (outDir ++ "/" ++ tname))
    (by simpa [addFile, addDir] using hfresh) hmap_nd
  have hd2files :
      (safes.foldl (fun a e => addFile a (f e)) (addDir d (outDir ++ "/" ++ tname))).files
        = (safes.map f).reverse ++ d.files := by
    rw [hfold.1]; simp [addDir]
  have hsources :
      rglobSafetensors
          (safes.foldl (fun a e => addFile a (f e)) (addDir d (outDir ++ "/" ++ tname))).files
          (outDir ++ "/" ++ tname)
        = (safes.map f).reverse := by
    rw [rglobSafetensors, hd2files, List.filter_append]
    have hA : (safes.map f).reverse.filter
        (fun p => decide (underDir (outDir ++ "/" ++ tname) p = true ∧
          endsWithStr p ".safetensors" = true))
        = (safes.map f).reverse := by
      apply List.filter_eq_self.mpr
      intro x hx
      obtain ⟨e, he, rfl⟩ := List.mem_map.mp (List.mem_reverse.mp hx)
      simp [hunder e, endsWith_child (outDir ++ "/" ++ tname) e ".safetensors" (h2 e he)]
    have hB : d.files.filter
        (fun p => decide (underDir (outDir ++ "/" ++ tname) p = true ∧
          endsWithStr p ".safetensors" = true)) = [] := by
      apply List.filter_eq_nil_iff.mpr
      intro p hp
      simp [h5 p hp]
    rw [hA, hB, List.append_nil]
  -- moveAll hypotheses
  have hshape : ∀ s ∈ (safes.map f).reverse, ∃ tail : String,
      s = outDir ++ "/" ++ tail ∧ '/' ∈ tail.data ∧ '/' ∉ (lastComponent s).data := by
    intro s hs
    obtain ⟨e, he, rfl⟩ := List.mem_map.mp (List.mem_reverse.mp hs)
    refine ⟨tname ++ "/" ++ e, ?_, ?_, ?_⟩
    · apply String.ext
      simp [hf, String.data_append]
    · simp [String.data_append]
    · have hl : lastComponent (f e) = e := by
        rw [hf]
        exact lastComponent_append (outDir ++ "/" ++ tname) e (h3 e he)
      rw [hl]
      exact h3 e he
  have hmem : ∀ s ∈ (safes.map f).reverse,
      s ∈ (safes.foldl (fun a e => addFile a (f e)) (addDir d (outDir ++ "/" ++ tname))).files := by
    intro s hs
    rw [hd2files]
    exact List.mem_append_left _ hs
  obtain ⟨dests, hlen, hndd, hprops, hMfiles, hMdirs, hMcnt, hlast_nil, hlast_ne⟩ :=
    moveAll_spec outDir ((safes.map f).reverse)
      (safes.foldl (fun a e => addFile a (f e)) (addDir d (outDir ++ "/" ++ tname)))
      0 none hmem (List.nodup_reverse.mpr hmap_nd) hshape
  -- the untouched files survive the move loop unchanged
  have hd2filter :
      (safes.foldl (fun a e => addFile a (f e)) (addDir d (outDir ++ "/" ++ tname))).files.filter
        (fun p => decide (p ∉ (safes.map f).reverse)) = d.files := by
    rw [hd2files, List.filter_append]
    have hA : (safes.map f).reverse.filter (fun p => decide (p ∉ (safes.map f).reverse)) = [] := by
      apply List.filter_eq_nil_iff.mpr
      intro p hp
      simp [hp]
    have hB : d.files.filter (fun p => decide (p ∉ (safes.map f).reverse)) = d.files := by
      apply List.filter_eq_self.mpr
      intro p hp
      have hpnot : p ∉ (safes.map f).reverse := by
        intro hc
        obtain ⟨e, _, rfl⟩ := List.mem_map.mp (List.mem_reverse.mp hc)
        have h7 := h5 (f e) hp
        rw [hunder e] at h7
        exact absurd h7 (by simp)
      simp [hpnot]
    rw [hA, hB, List.nil_append]
  rw [hd2filter] at hMfiles
  -- destinations are fresh for the original disk and direct children of outDir
  have hdest_shape : ∀ x ∈ dests, ∃ t, '/' ∉ t.data ∧ x = outDir ++ "/" ++ t :=
    fun x hx => (hprops x hx).1
  have hdest_fresh : ∀ x ∈ dests, x ∉ d.files := by
    intro x hx hc
    apply (hprops x hx).2
    rw [hd2files]
    exact List.mem_append_right _ hc
  have hdest_not_under : ∀ x ∈ dests, underDir (outDir ++ "/" ++ tname) x = false := by
    intro x hx
    obtain ⟨t, ht, rfl⟩ := hdest_shape x hx
    exact not_underDir_child outDir tname t ht
  have hdest_ne_zip : ∀ x ∈ dests, x ≠ zipPath := by
    intro x hx hc
    exact hdest_fresh x hx (hc ▸ h6)
  -- set M := the move loop result
  set M := moveAll outDir
    (safes.foldl (fun a e => addFile a (f e)) (addDir d (outDir ++ "/" ++ tname)))
    ((safes.map f).reverse) 0 none with hM
  -- rmtree leaves exactly the moved files plus the original files
  have hrm_files : (rmtree M.1 (outDir ++ "/" ++ tname)).files = dests.reverse ++ d.files := by
    rw [rmtree]
    show (M.1.files.filter fun p => decide (¬underDir (outDir ++ "/" ++ tname) p = true))
      = dests.reverse ++ d.files
    rw [hMfiles]
    apply List.filter_eq_self.mpr
    intro p hp
    rcases List.mem_append.mp hp with hp1 | hp2
    · simp [hdest_not_under p (List.mem_reverse.mp hp1)]
    · simp [h5 p hp2]
  have hrm_dirs : (outDir ++ "/" ++ tname) ∉ (rmtree M.1 (outDir ++ "/" ++ tname)).dirs := by
    rw [rmtree]
    intro hc
    simp only [List.mem_filter] at hc
    exact absurd hc.2 (by simp)
  have hfinal_files :
      (removeFile (rmtree M.1 (outDir ++ "/" ++ tname)) zipPath).files
        = dests.reverse ++ d.files.filter (· ≠ zipPath) := by
    rw [removeFile]
    show (rmtree M.1 (outDir ++ "/" ++ tname)).files.filter (fun p => decide (p ≠ zipPath))
      = dests.reverse ++ d.files.filter (· ≠ zipPath)
    rw [hrm_files, List.filter_append]
    congr 1
    apply List.filter_eq_self.mpr
    intro x hx
    simp [hdest_ne_zip x (List.mem_reverse.mp hx)]
  have hdests_ne : dests ≠ [] := by
    intro hc
    rw [hc] at hlen
    simp at hlen
    exact h1 (List.eq_nil_of_length_eq_zero hlen.symm)
  have hcnt' : M.2.1 = safes.length := by
    rw [hMcnt]
    simp
  -- assemble, rewriting the run into its components
  have hrun := extractRun_eq (addDir d (outDir ++ "/" ++ tname)) outDir zipPath
    (outDir ++ "/" ++ tname) safes
  have hfequiv : (fun (a : Disk) (e : String) => addFile a ((outDir ++ "/" ++ tname) ++ "/" ++ e))
      = (fun a e => addFile a (f e)) := by
    funext a e
    rw [hf]
  rw [hfequiv] at hrun
  have hglob : rglobSafetensors
      (safes.foldl (fun a e => addFile a (f e)) (addDir d (outDir ++ "/" ++ tname))).files
      (outDir ++ "/" ++ tname) = (safes.map f).reverse := hsources
  rw [hglob, ← hM] at hrun
  refine ⟨dests, by rw [hlen]; simp, hndd, hdest_fresh, ?_, ?_, ?_, hdests_ne, ?_, ?_, ?_, ?_⟩
  · rw [hrun]
    exact hfinal_files
  · rw [hrun]
  · rw [hrun]
    show "Extracted " ++ natToDec M.2.1 ++ " safetensors file(s)" = _
    rw [hcnt']
  · rw [hrun]
    show M.2.2 = dests.getLast?
    exact hlast_ne hdests_ne
  · rw [hrun]
    show (outDir ++ "/" ++ tname) ∉ (removeFile (rmtree M.1 (outDir ++ "/" ++ tname)) zipPath).dirs
    rw [removeFile]
    exact hrm_dirs
  · rw [hrun]
    intro p hp
    rw [hfinal_files] at hp
    rcases List.mem_append.mp hp with hp1 | hp2
    · exact hdest_not_under p (List.mem_reverse.mp hp1)
    · exact h5 p (List.mem_filter.mp hp2).1
  · rw [hrun]
    rw [hfinal_files]
    intro hc
    rcases List.mem_append.mp hc with hc1 | hc2
    · exact hdest_ne_zip zipPath (List.mem_reverse.mp hc1) rfl
    · have := (List.mem_filter.mp hc2).2
      simp at this

/-- C6 counterexample: the claim promises, for any container with N ≥ 1
case-insensitive matches, N relocated files and a reported canonical path.
For a zip whose single matching member carries the extension in upper case
(`A.SAFETENSORS`), the member is selected and extracted, but the
case-sensitive `rglob('*.safetensors')` pass relocates nothing: the code
reports zero extractions, no canonical path, and still deletes the container,
leaving the output directory empty. -/
theorem c6_zip_relocation_counterexample :
    (extractSafetensorsFromZip (⟨["out/m.zip"], ["out"], fun _ => 0, fun _ => 0⟩ : Disk)
        "out" "out/m.zip" (.entries ["A.SAFETENSORS"] none)).2.2.1
      = "Extracted 0 safetensors file(s)" ∧
    (extractSafetensorsFromZip (⟨["out/m.zip"], ["out"], fun _ => 0, fun _ => 0⟩ : Disk)
        "out" "out/m.zip" (.entries ["A.SAFETENSORS"] none)).2.2.2 = none ∧
    (extractSafetensorsFromZip (⟨["out/m.zip"], ["out"], fun _ => 0, fun _ => 0⟩ : Disk)
        "out" "out/m.zip" (.entries ["A.SAFETENSORS"] none)).1.files = [] ∧
    (["A.SAFETENSORS"].filter (fun n => matchesSafetensors n)).length = 1 := by
  refine ⟨?_, ?_, ?_, ?_⟩ <;> decide

/-- C6 (amended): for a container with N ≥ 1 matching members whose names are
distinct, free of directory separators, and end with the payload extension in
exact lower case (entries matching only case-insensitively are extracted but
never relocated - see the counterexample), the post-processor relocates
exactly N files into the output directory at collision-free names, removes
the scratch directory and the original container, and reports success with
the count N and the path of the last relocated file; the final conjunct
characterises the collision scheme: `_get_unique_filename` never returns an
existing path, and resolves collisions with the first free
`stem_k.suffix` counter (k = 1, 2, ...). -/
theorem c6_zip_matches_relocation (d : Disk) (outDir zipPath : String) (names : List String)
    (h1 : names.filter (fun n => matchesSafetensors n) ≠ [])
    (h2 : ∀ e ∈ names.filter (fun n => matchesSafetensors n), endsWithStr e ".safetensors" = true)
    (h3 : ∀ e ∈ names.filter (fun n => matchesSafetensors n), '/' ∉ e.data)
    (h4 : (names.filter (fun n => matchesSafetensors n)).Nodup)
    (h5 : ∀ p ∈ d.files,
      underDir (outDir ++ "/" ++ "temp_extract_" ++ pyStem zipPath) p = false)
    (h6 : zipPath ∈ d.files) :
    (∃ dests : List String,
      dests.length = (names.filter (fun n => matchesSafetensors n)).length ∧
      dests.Nodup ∧
      (∀ x ∈ dests, x ∉ d.files) ∧
      (extractSafetensorsFromZip d outDir zipPath (.entries names none)).1.files
        = dests.reverse ++ d.files.filter (· ≠ zipPath) ∧
      (extractSafetensorsFromZip d outDir zipPath (.entries names none)).2.1 = true ∧
      (extractSafetensorsFromZip d outDir zipPath (.entries names none)).2.2.1
        = "Extracted " ++ natToDec (names.filter (fun n => matchesSafetensors n)).length
            ++ " safetensors file(s)" ∧
      dests ≠ [] ∧
      (extractSafetensorsFromZip d outDir zipPath (.entries names none)).2.2.2
        = dests.getLast? ∧
      (outDir ++ "/" ++ "temp_extract_" ++ pyStem zipPath)
        ∉ (extractSafetensorsFromZip d outDir zipPath (.entries names none)).1.dirs ∧
      (∀ p ∈ (extractSafetensorsFromZip d outDir zipPath (.entries names none)).1.files,
        underDir (outDir ++ "/" ++ "temp_extract_" ++ pyStem zipPath) p = false) ∧
      zipPath ∉ (extractSafetensorsFromZip d outDir zipPath (.entries names none)).1.files) ∧
    (∀ (fls : List String) (dir nm : String),
      getUniqueFilename fls dir nm ∉ fls ∧
        (getUniqueFilename fls dir nm = dir ++ "/" ++ nm ∨
          ((dir ++ "/" ++ nm) ∈ fls ∧
            ∃ k, 1 ≤ k ∧
              getUniqueFilename fls dir nm
                = candName dir (pyStemSuffix nm).1 (pyStemSuffix nm).2 k ∧
              (∀ j, 1 ≤ j → j < k →
                candName dir (pyStemSuffix nm).1 (pyStemSuffix nm).2 j ∈ fls)))) := by
  constructor
  · have htn : '/' ∉ ("temp_extract_" ++ pyStem zipPath).data := by
      intro hc
      simp only [String.data_append, List.mem_append] at hc
      rcases hc with hc | hc
      · exact absurd hc (by decide)
      · exact noSlash_lastComponent zipPath ((pyStemSuffix_chars (lastComponent zipPath) '/').1 hc)
    have htd : outDir ++ "/" ++ "temp_extract_" ++ pyStem zipPath
        = outDir ++ "/" ++ ("temp_extract_" ++ pyStem zipPath) :=
      String.append_assoc _ _ _
    rw [extract_entries_eq d outDir zipPath names h1]
    exact extractRun_spec d outDir zipPath _ ("temp_extract_" ++ pyStem zipPath)
      (names.filter (fun n => matchesSafetensors n)) htd htn h1 h2 h3 h4 h5 h6
  · exact fun fls dir nm => getUniqueFilename_spec fls dir nm

theorem c6_zip_matches_relocation_witness :
    (extractSafetensorsFromZip
        (⟨["out/m.zip", "out/a.safetensors"], ["out"], fun _ => 0, fun _ => 0⟩ : Disk)
        "out" "out/m.zip" (.entries ["a.safetensors", "b.safetensors"] none)).2.2.1
      = "Extracted 2 safetensors file(s)" ∧
    "out/m.zip" ∉ (extractSafetensorsFromZip
        (⟨["out/m.zip", "out/a.safetensors"], ["out"], fun _ => 0, fun _ => 0⟩ : Disk)
        "out" "out/m.zip" (.entries ["a.safetensors", "b.safetensors"] none)).1.files := by
  have H := c6_zip_matches_relocation
    (⟨["out/m.zip", "out/a.safetensors"], ["out"], fun _ => 0, fun _ => 0⟩ : Disk)
    "out" "out/m.zip" ["a.safetensors", "b.safetensors"]
    (by decide) (by decide) (by decide) (by decide) (by decide) (by decide)
  obtain ⟨⟨dests, _, _, _, _, _, hmsg, _, _, _, _, hzip⟩, _⟩ := H
  constructor
  · rw [hmsg]
    decide
  · exact hzip
/-! ## Trace-shape lemmas for the orchestrator claims -/

def isTransferEv : NetEvent → Bool
  | .transfer _ _ => true
  | _ => false

def isMetaEv : NetEvent → Bool
  | .metadataRequest _ => true
  | _ => false

theorem downloadWithUrl_trace (w : World) (outDir url : String) (prefer : Option String) :
    ∃ (pr : List NetEvent) (n : String),
      (∀ e ∈ pr, isTransferEv e = false ∧ isMetaEv e = false) ∧
      (downloadWithUrl w outDir url prefer).1.trace = w.trace ++ pr ++ [.transfer url n] := by
  by_cases hp : truthy prefer = true
  · refine ⟨[], lastComponent (getUniqueFilename w.disk.files outDir
      (if truthy prefer = true then prefer.getD "" else "download.bin")), by simp, ?_⟩
    simp only [downloadWithUrl, hp, if_true, runAria]
    repeat' split
    all_goals simp
  · refine ⟨[.headerProbe url],
      lastComponent (getUniqueFilename w.disk.files outDir
        (if truthy (match w.probes.headD none with
            | some cd => parseContentDispositionFilename cd
            | none => none) = true
          then (match w.probes.headD none with
            | some cd => parseContentDispositionFilename cd
            | none => none).getD ""
          else "download.bin")),
      by simp [isTransferEv, isMetaEv], ?_⟩
    simp only [downloadWithUrl, hp, if_false, getFilenameFromHeaders, runAria]
    repeat' split
    all_goals simp_all

theorem processDownloadedFile_trace (w : World) (outDir p : String) :
    (processDownloadedFile w outDir p).1.trace = w.trace := by
  unfold processDownloadedFile
  repeat' split
  all_goals rfl

theorem attemptStage_trace (w : World) (outDir url : String) (name : Option String) :
    ∃ (pr : List NetEvent) (n : String),
      (∀ e ∈ pr, isTransferEv e = false ∧ isMetaEv e = false) ∧
      (attemptStage w outDir url name).1.trace = w.trace ++ pr ++ [.transfer url n] := by
  obtain ⟨pr, n, hpr, htr⟩ := downloadWithUrl_trace w outDir url name
  refine ⟨pr, n, hpr, ?_⟩
  simp only [attemptStage]
  rcases hdl : (downloadWithUrl w outDir url name).2 with ⟨ok, path⟩
  cases ok with
  | false => simpa using htr
  | true =>
    cases path with
    | none => simpa using htr
    | some p =>
      simp only []
      rcases hpp : (processDownloadedFile (downloadWithUrl w outDir url name).1 outDir p).2
        with ⟨ok2, msg, fp⟩
      cases ok2 <;> simp [processDownloadedFile_trace, htr]

theorem fallbackNameStep_trace (w : World) (outDir : String) (prefer : Option String)
    (zipUrl : String) :
    (fallbackNameStep w outDir prefer zipUrl).1.trace
      = w.trace ++ [NetEvent.headerProbe zipUrl] := by
  unfold fallbackNameStep getFilenameFromHeaders
  simp only []
  repeat' split
  all_goals rfl

theorem diffusersFallback_spec (w : World) (outDir modelId token : String)
    (prefer : Option String) :
    ∃ (pr : List NetEvent) (n : String),
      (∀ e ∈ pr, isTransferEv e = false ∧ isMetaEv e = false) ∧
      (diffusersFallback w outDir modelId token prefer).1.trace
        = (w.trace ++ [NetEvent.headerProbe (downloadUrl modelId token "Diffusers")]) ++ pr
            ++ [NetEvent.transfer (downloadUrl modelId token "Diffusers") n] ∧
      ((∃ p, (diffusersFallback w outDir modelId token prefer).2 = (true, some p)) ∨
        (diffusersFallback w outDir modelId token prefer).2 = (false, none)) := by
  obtain ⟨pr, n, hpr, htr⟩ := attemptStage_trace
    (fallbackNameStep w outDir prefer (downloadUrl modelId token "Diffusers")).1 outDir
    (downloadUrl modelId token "Diffusers")
    (fallbackNameStep w outDir prefer (downloadUrl modelId token "Diffusers")).2
  rw [fallbackNameStep_trace] at htr
  refine ⟨pr, n, hpr, ?_, ?_⟩
  · simp only [diffusersFallback]
    rcases ha2 : (attemptStage
        (fallbackNameStep w outDir prefer (downloadUrl modelId token "Diffusers")).1 outDir
        (downloadUrl modelId token "Diffusers")
        (fallbackNameStep w outDir prefer (downloadUrl modelId token "Diffusers")).2).2
      with _ | p
    · simpa using htr
    · simpa using htr
  · simp only [diffusersFallback]
    rcases ha2 : (attemptStage
        (fallbackNameStep w outDir prefer (downloadUrl modelId token "Diffusers")).1 outDir
        (downloadUrl modelId token "Diffusers")
        (fallbackNameStep w outDir prefer (downloadUrl modelId token "Diffusers")).2).2
      with _ | p
    · simp
    · simp

/-- C9: in every orchestration run the SafeTensor format is attempted before
the Diffusers-ZIP container format - the transfer-event trace is either one
SafeTensor transfer or a SafeTensor transfer followed by a Diffusers one;
the fallback is entered only if the primary attempt failed (a successful
primary attempt yields its result with exactly one transfer); every run
returns either a success with a path or the failure pair `(false, none)` -
the embedding is a total function, mirroring that the source catches every
transfer/extraction exception and never raises past this boundary; and no
run ever issues a metadata request. -/
theorem c9_primary_then_fallback (w : World) (outDir modelId token : String)
    (prefer : Option String) (force : Bool) :
    ((∃ n, (downloadWithAria2 w outDir modelId token prefer force).1.trace.filter isTransferEv
        = w.trace.filter isTransferEv
            ++ [NetEvent.transfer (downloadUrl modelId token "SafeTensor") n]) ∨
      (∃ n m, (downloadWithAria2 w outDir modelId token prefer force).1.trace.filter isTransferEv
        = w.trace.filter isTransferEv
            ++ [NetEvent.transfer (downloadUrl modelId token "SafeTensor") n,
                NetEvent.transfer (downloadUrl modelId token "Diffusers") m])) ∧
    (∀ p, (attemptStage
          (if truthy prefer then
            { w with disk := cleanupIncompleteDownload w.disk (outDir ++ "/" ++ prefer.getD "") }
          else w)
          outDir (downloadUrl modelId token "SafeTensor") prefer).2 = some p →
      (downloadWithAria2 w outDir modelId token prefer force).2 = (true, some p) ∧
      ∃ n, (downloadWithAria2 w outDir modelId token prefer force).1.trace.filter isTransferEv
        = w.trace.filter isTransferEv
            ++ [NetEvent.transfer (downloadUrl modelId token "SafeTensor") n]) ∧
    ((∃ p, (downloadWithAria2 w outDir modelId token prefer force).2 = (true, some p)) ∨
      (downloadWithAria2 w outDir modelId token prefer force).2 = (false, none)) ∧
    (downloadWithAria2 w outDir modelId token prefer force).1.trace.filter isMetaEv
      = w.trace.filter isMetaEv := by
  have hw1tr : (if truthy prefer then
      { w with disk := cleanupIncompleteDownload w.disk (outDir ++ "/" ++ prefer.getD "") }
    else w).trace = w.trace := by
    by_cases h : truthy prefer = true <;> simp [h]
  obtain ⟨pr1, n1, hpr1, htr1⟩ := attemptStage_trace
    (if truthy prefer then
      { w with disk := cleanupIncompleteDownload w.disk (outDir ++ "/" ++ prefer.getD "") }
    else w) outDir (downloadUrl modelId token "SafeTensor") prefer
  rw [hw1tr] at htr1
  have hp1T : pr1.filter isTransferEv = [] :=
    List.filter_eq_nil_iff.mpr (fun e he => by simp [(hpr1 e he).1])
  have hp1M : pr1.filter isMetaEv = [] :=
    List.filter_eq_nil_iff.mpr (fun e he => by simp [(hpr1 e he).2])
  simp only [downloadWithAria2]
  rcases ha1 : (attemptStage
      (if truthy prefer then
        { w with disk := cleanupIncompleteDownload w.disk (outDir ++ "/" ++ prefer.getD "") }
      else w) outDir (downloadUrl modelId token "SafeTensor") prefer).2 with _ | p
  · -- primary failed: the fallback runs
    obtain ⟨pr2, m, hpr2, htr2, hres2⟩ := diffusersFallback_spec
      (attemptStage
        (if truthy prefer then
          { w with disk := cleanupIncompleteDownload w.disk (outDir ++ "/" ++ prefer.getD "") }
        else w) outDir (downloadUrl modelId token "SafeTensor") prefer).1
      outDir modelId token prefer
    rw [htr1] at htr2
    have hp2T : pr2.filter isTransferEv = [] :=
      List.filter_eq_nil_iff.mpr (fun e he => by simp [(hpr2 e he).1])
    have hp2M : pr2.filter isMetaEv = [] :=
      List.filter_eq_nil_iff.mpr (fun e he => by simp [(hpr2 e he).2])
    refine ⟨Or.inr ⟨n1, m, ?_⟩, ?_, ?_, ?_⟩
    · rw [htr2]
      simp [List.filter_append, hp1T, hp2T, isTransferEv]
    · intro p hp
      exact absurd hp (by simp)
    · exact hres2
    · rw [htr2]
      simp [List.filter_append, hp1M, hp2M, isMetaEv]
  · -- primary succeeded: no fallback
    refine ⟨Or.inl ⟨n1, ?_⟩, ?_, Or.inl ⟨p, rfl⟩, ?_⟩
    · rw [htr1]
      simp [List.filter_append, hp1T, isTransferEv]
    · intro q hq
      have hqp : p = q := by simpa using hq
      subst hqp
      refine ⟨rfl, n1, ?_⟩
      rw [htr1]
      simp [List.filter_append, hp1T, isTransferEv]
    · rw [htr1]
      simp [List.filter_append, hp1M, isMetaEv]

theorem downloadWithUrl_transfers (w : World) (outDir url : String) (prefer : Option String) :
    (downloadWithUrl w outDir url prefer).1.transfers = w.transfers.tail := by
  unfold downloadWithUrl getFilenameFromHeaders runAria
  simp only []
  repeat' split
  all_goals rfl

theorem downloadWithUrl_binMissing (w : World) (outDir url : String) (prefer : Option String)
    (h : w.transfers.headD .exitNonzero = .binMissing) :
    (downloadWithUrl w outDir url prefer).2 = (false, none) := by
  unfold downloadWithUrl getFilenameFromHeaders runAria
  simp only []
  repeat' split
  all_goals simp_all

theorem processDownloadedFile_transfers (w : World) (outDir p : String) :
    (processDownloadedFile w outDir p).1.transfers = w.transfers := by
  unfold processDownloadedFile
  repeat' split
  all_goals rfl

theorem attemptStage_of_fail (w : World) (outDir url : String) (name : Option String)
    (h : (downloadWithUrl w outDir url name).2 = (false, none)) :
    attemptStage w outDir url name = ((downloadWithUrl w outDir url name).1, none) := by
  simp only [attemptStage, h]

theorem attemptStage_transfers (w : World) (outDir url : String) (name : Option String) :
    (attemptStage w outDir url name).1.transfers = w.transfers.tail := by
  simp only [attemptStage]
  rcases hdl : (downloadWithUrl w outDir url name).2 with ⟨ok, path⟩
  cases ok with
  | false => simpa using downloadWithUrl_transfers w outDir url name
  | true =>
    cases path with
    | none => simpa using downloadWithUrl_transfers w outDir url name
    | some p =>
      simp only []
      rcases hpp : (processDownloadedFile (downloadWithUrl w outDir url name).1 outDir p).2
        with ⟨ok2, msg, fp⟩
      cases ok2 <;>
        simp [processDownloadedFile_transfers, downloadWithUrl_transfers w outDir url name]

theorem fallbackNameStep_transfers (w : World) (outDir : String) (prefer : Option String)
    (zipUrl : String) :
    (fallbackNameStep w outDir prefer zipUrl).1.transfers = w.transfers := by
  unfold fallbackNameStep getFilenameFromHeaders
  simp only []
  repeat' split
  all_goals rfl

/-- C8 (amended): when the external downloader binary cannot be located, the
Transfer Invoker returns the failure pair, but the orchestrator does NOT
treat this as a distinct fatal configuration error: it proceeds to the
fallback-format attempt (a Diffusers transfer invocation follows the
SafeTensor one), and only after that also fails does it return the same
indistinct failure outcome `(false, none)` that any other failure produces. -/
theorem c8_missing_binary_not_fatal (w : World) (outDir modelId token : String)
    (prefer : Option String) (force : Bool) (rest : List TransferBehavior)
    (htr : w.transfers = .binMissing :: .binMissing :: rest) :
    (∀ (w' : World) (outDir' url' : String) (name' : Option String),
      w'.transfers.headD .exitNonzero = .binMissing →
        (downloadWithUrl w' outDir' url' name').2 = (false, none)) ∧
    (downloadWithAria2 w outDir modelId token prefer force).2 = (false, none) ∧
    (∃ n m, (downloadWithAria2 w outDir modelId token prefer force).1.trace.filter isTransferEv
      = w.trace.filter isTransferEv
          ++ [NetEvent.transfer (downloadUrl modelId token "SafeTensor") n,
              NetEvent.transfer (downloadUrl modelId token "Diffusers") m]) := by
  have hinv := fun w' o u n h => downloadWithUrl_binMissing w' o u n h
  have hw1 : (if truthy prefer then
      { w with disk := cleanupIncompleteDownload w.disk (outDir ++ "/" ++ prefer.getD "") }
    else w).transfers = w.transfers := by
    by_cases h : truthy prefer = true <;> simp [h]
  have hw1tr : (if truthy prefer then
      { w with disk := cleanupIncompleteDownload w.disk (outDir ++ "/" ++ prefer.getD "") }
    else w).trace = w.trace := by
    by_cases h : truthy prefer = true <;> simp [h]
  -- the primary attempt fails on the missing binary
  have hdl1 : (downloadWithUrl
      (if truthy prefer then
        { w with disk := cleanupIncompleteDownload w.disk (outDir ++ "/" ++ prefer.getD "") }
      else w) outDir (downloadUrl modelId token "SafeTensor") prefer).2 = (false, none) := by
    apply downloadWithUrl_binMissing
    rw [hw1, htr]
    rfl
  have ha1 := attemptStage_of_fail _ outDir (downloadUrl modelId token "SafeTensor") prefer hdl1
  have ha1none : (attemptStage
      (if truthy prefer then
        { w with disk := cleanupIncompleteDownload w.disk (outDir ++ "/" ++ prefer.getD "") }
      else w) outDir (downloadUrl modelId token "SafeTensor") prefer).2 = none := by
    rw [ha1]
  -- transfers left for the fallback attempt
  have ha1transfers : (attemptStage
      (if truthy prefer then
        { w with disk := cleanupIncompleteDownload w.disk (outDir ++ "/" ++ prefer.getD "") }
      else w) outDir (downloadUrl modelId token "SafeTensor") prefer).1.transfers
      = .binMissing :: rest := by
    rw [attemptStage_transfers, hw1, htr]
    rfl
  -- the fallback attempt also fails on the missing binary
  have hdl2 : (downloadWithUrl
      (fallbackNameStep (attemptStage
        (if truthy prefer then
          { w with disk := cleanupIncompleteDownload w.disk (outDir ++ "/" ++ prefer.getD "") }
        else w) outDir (downloadUrl modelId token "SafeTensor") prefer).1
        outDir prefer (downloadUrl modelId token "Diffusers")).1
      outDir (downloadUrl modelId token "Diffusers")
      (fallbackNameStep (attemptStage
        (if truthy prefer then
          { w with disk := cleanupIncompleteDownload w.disk (outDir ++ "/" ++ prefer.getD "") }
        else w) outDir (downloadUrl modelId token "SafeTensor") prefer).1
        outDir prefer (downloadUrl modelId token "Diffusers")).2).2 = (false, none) := by
    apply downloadWithUrl_binMissing
    rw [fallbackNameStep_transfers, ha1transfers]
    rfl
  have ha2 := attemptStage_of_fail _ outDir (downloadUrl modelId token "Diffusers") _ hdl2
  -- assemble the run
  have hrun : downloadWithAria2 w outDir modelId token prefer force
      = ((attemptStage (fallbackNameStep (attemptStage
          (if truthy prefer then
            { w with disk := cleanupIncompleteDownload w.disk (outDir ++ "/" ++ prefer.getD "") }
          else w) outDir (downloadUrl modelId token "SafeTensor") prefer).1
          outDir prefer (downloadUrl modelId token "Diffusers")).1
          outDir (downloadUrl modelId token "Diffusers")
          (fallbackNameStep (attemptStage
            (if truthy prefer then
              { w with disk := cleanupIncompleteDownload w.disk (outDir ++ "/" ++ prefer.getD "") }
            else w) outDir (downloadUrl modelId token "SafeTensor") prefer).1
            outDir prefer (downloadUrl modelId token "Diffusers")).2).1,
         (false, none)) := by
    simp only [downloadWithAria2, ha1none, diffusersFallback]
    rcases hsplit : (attemptStage (fallbackNameStep (attemptStage
        (if truthy prefer then
          { w with disk := cleanupIncompleteDownload w.disk (outDir ++ "/" ++ prefer.getD "") }
        else w) outDir (downloadUrl modelId token "SafeTensor") prefer).1
        outDir prefer (downloadUrl modelId token "Diffusers")).1
        outDir (downloadUrl modelId token "Diffusers")
        (fallbackNameStep (attemptStage
          (if truthy prefer then
            { w with disk := cleanupIncompleteDownload w.disk (outDir ++ "/" ++ prefer.getD "") }
          else w) outDir (downloadUrl modelId token "SafeTensor") prefer).1
          outDir prefer (downloadUrl modelId token "Diffusers")).2).2 with _ | q
    · simp
    · rw [ha2] at hsplit
      exact absurd hsplit (by simp)
  refine ⟨hinv, by rw [hrun], ?_⟩
  -- the trace: one SafeTensor transfer, then one Diffusers transfer
  obtain ⟨pr1, n1, hpr1, htr1⟩ := attemptStage_trace
    (if truthy prefer then
      { w with disk := cleanupIncompleteDownload w.disk (outDir ++ "/" ++ prefer.getD "") }
    else w) outDir (downloadUrl modelId token "SafeTensor") prefer
  rw [hw1tr] at htr1
  obtain ⟨pr2, n2, hpr2, htr2⟩ := attemptStage_trace
    (fallbackNameStep (attemptStage
      (if truthy prefer then
        { w with disk := cleanupIncompleteDownload w.disk (outDir ++ "/" ++ prefer.getD "") }
      else w) outDir (downloadUrl modelId token "SafeTensor") prefer).1
      outDir prefer (downloadUrl modelId token "Diffusers")).1 outDir
    (downloadUrl modelId token "Diffusers")
    (fallbackNameStep (attemptStage
      (if truthy prefer then
        { w with disk := cleanupIncompleteDownload w.disk (outDir ++ "/" ++ prefer.getD "") }
      else w) outDir (downloadUrl modelId token "SafeTensor") prefer).1
      outDir prefer (downloadUrl modelId token "Diffusers")).2
  rw [fallbackNameStep_trace, htr1] at htr2
  have hp1T : pr1.filter isTransferEv = [] :=
    List.filter_eq_nil_iff.mpr (fun e he => by simp [(hpr1 e he).1])
  have hp2T : pr2.filter isTransferEv = [] :=
    List.filter_eq_nil_iff.mpr (fun e he => by simp [(hpr2 e he).1])
  refine ⟨n1, n2, ?_⟩
  have hfinal : (downloadWithAria2 w outDir modelId token prefer force).1.trace
      = ((w.trace ++ pr1 ++ [NetEvent.transfer (downloadUrl modelId token "SafeTensor") n1])
          ++ [NetEvent.headerProbe (downloadUrl modelId token "Diffusers")]) ++ pr2
          ++ [NetEvent.transfer (downloadUrl modelId token "Diffusers") n2] := by
    rw [hrun]
    exact htr2
  rw [hfinal]
  simp [List.filter_append, hp1T, hp2T, isTransferEv]

/-- C8 counterexample: with the downloader binary missing (both aria2
invocations fail with `FileNotFoundError`), the orchestrator still makes a
second, fallback-format transfer attempt - the trace contains a Diffusers
transfer after the SafeTensor one - contradicting the claim that the
condition is surfaced immediately with no fallback-format attempt. -/
theorem c8_missing_binary_counterexample :
    ((downloadWithAria2
        (⟨⟨[], ["out"], fun _ => 0, fun _ => 0⟩, [none], [.binMissing, .binMissing], [], 0, []⟩ : World)
        "out" "99" "" (some "m.safetensors") false).1.trace.filter isTransferEv).length = 2 ∧
    ((downloadWithAria2
        (⟨⟨[], ["out"], fun _ => 0, fun _ => 0⟩, [none], [.binMissing, .binMissing], [], 0, []⟩ : World)
        "out" "99" "" (some "m.safetensors") false).1.trace.filter isTransferEv).getLast?
      = some (.transfer "https://civitai.com/api/download/models/99?type=Model&format=Diffusers"
          "m_diffusers.zip") ∧
    (downloadWithAria2
        (⟨⟨[], ["out"], fun _ => 0, fun _ => 0⟩, [none], [.binMissing, .binMissing], [], 0, []⟩ : World)
        "out" "99" "" (some "m.safetensors") false).2 = (false, none) := by
  refine ⟨?_, ?_, ?_⟩ <;> decide

theorem c8_missing_binary_not_fatal_witness :
    (downloadWithAria2
        (⟨⟨[], ["out"], fun _ => 0, fun _ => 0⟩, [none], [.binMissing, .binMissing], [], 0, []⟩ : World)
        "out" "99" "tok" (some "m.safetensors") false).2 = (false, none) :=
  (c8_missing_binary_not_fatal
    (⟨⟨[], ["out"], fun _ => 0, fun _ => 0⟩, [none], [.binMissing, .binMissing], [], 0, []⟩ : World)
    "out" "99" "tok" (some "m.safetensors") false [] rfl).2.1

theorem c9_primary_then_fallback_witness :
    (downloadWithAria2
        (⟨⟨[], ["out"], fun _ => 0, fun _ => 0⟩, [],
          [.exitOk [("out/m.safetensors", 5242880, 50)]], [], 60, []⟩ : World)
        "out" "7" "t" (some "m.safetensors") false).2 = (true, some "out/m.safetensors") := by
  have H := c9_primary_then_fallback
    (⟨⟨[], ["out"], fun _ => 0, fun _ => 0⟩, [],
      [.exitOk [("out/m.safetensors", 5242880, 50)]], [], 60, []⟩ : World)
    "out" "7" "t" (some "m.safetensors") false
  exact (H.2.1 "out/m.safetensors" (by decide)).1

/-- C1: the claim promises that without the force flag a valid pre-existing
file short-circuits the run with zero network activity. The code ignores
`force` entirely (the parameter is never read). At this input the pre-existing
file at the expected path is valid, force is false, and the run nevertheless:
deletes the valid file during the pre-attempt cleanup, performs two transfer
invocations (plus a header probe), and ends in failure with the file gone. -/
theorem c1_force_flag_ignored :
    (validateFile (⟨["out/model.safetensors"], ["out"], fun _ => 5242880, fun _ => 1000⟩ : Disk)
      "out/model.safetensors").1 = true ∧
    ((downloadWithAria2
        (⟨⟨["out/model.safetensors"], ["out"], fun _ => 5242880, fun _ => 1000⟩, [none],
          [.exitNonzero, .exitNonzero], [], 1000, []⟩ : World)
        "out" "123" "tok" (some "model.safetensors") false).1.trace.filter isTransferEv).length
      = 2 ∧
    (downloadWithAria2
        (⟨⟨["out/model.safetensors"], ["out"], fun _ => 5242880, fun _ => 1000⟩, [none],
          [.exitNonzero, .exitNonzero], [], 1000, []⟩ : World)
        "out" "123" "tok" (some "model.safetensors") false).2 = (false, none) ∧
    "out/model.safetensors" ∉
      (downloadWithAria2
        (⟨⟨["out/model.safetensors"], ["out"], fun _ => 5242880, fun _ => 1000⟩, [none],
          [.exitNonzero, .exitNonzero], [], 1000, []⟩ : World)
        "out" "123" "tok" (some "model.safetensors") false).1.disk.files := by
  refine ⟨?_, ?_, ?_, ?_⟩ <;> decide

/-- The header-derived filename as `_download_with_url` resolves it when no
override is given: the parsed Content-Disposition name when truthy, else the
generic `download.bin`. -/
def headerResolvedName (cd : Option String) : String :=
  let r : Option String := match cd with
    | some c => parseContentDispositionFilename c
    | none => none
  if truthy r then r.getD "" else "download.bin"

/-- C2 counterexample: the claim gives the API metadata name second priority.
With no override, metadata declaring `meta.safetensors` and the probe header
declaring `header.bin`, the code resolves `header.bin`: `get_model_info` is
never invoked by the download path (the run makes no metadata request), so
the metadata level of the claimed precedence does not exist. -/
theorem c2_metadata_precedence_counterexample :
    getModelInfo (some [some "meta.safetensors"]) = some "meta.safetensors" ∧
    (downloadWithUrl
        (⟨⟨[], ["out"], fun _ => 0, fun _ => 0⟩,
          [some "attachment; filename=\"header.bin\""], [.exitNonzero], [], 0, []⟩ : World)
        "out" "u" none).1.trace
      = [.headerProbe "u", .transfer "u" "header.bin"] ∧
    "header.bin" ≠ "meta.safetensors" := by
  refine ⟨?_, ?_, ?_⟩ <;> decide

/-- C2 (amended): filename resolution in the download path is three-level,
not four: a non-empty override is used directly with no header probe; with
no (or an empty) override one header probe is made and its parsed name is
used when non-empty, else the generic `download.bin` (all via
`headerResolvedName`); the resolved name is then only de-collided by
`_get_unique_filename`. The API metadata name has no place in the chain: no
run of `_download_with_url` ever issues a metadata request. -/
theorem c2_resolution_three_levels (w : World) (outDir url : String) :
    (∀ s : String, s ≠ "" →
      (downloadWithUrl w outDir url (some s)).1.trace
        = w.trace ++ [NetEvent.transfer url
            (lastComponent (getUniqueFilename w.disk.files outDir s))]) ∧
    (∀ prefer : Option String, truthy prefer = false →
      (downloadWithUrl w outDir url prefer).1.trace
        = w.trace ++ [NetEvent.headerProbe url,
            NetEvent.transfer url (lastComponent (getUniqueFilename w.disk.files outDir
              (headerResolvedName (w.probes.headD none))))]) ∧
    (headerResolvedName none = "download.bin") ∧
    (∀ prefer : Option String,
      (downloadWithUrl w outDir url prefer).1.trace.filter isMetaEv
        = w.trace.filter isMetaEv) := by
  refine ⟨?_, ?_, rfl, ?_⟩
  · intro s hs
    have hp : truthy (some s) = true := by simp [truthy, hs]
    simp only [downloadWithUrl, hp, if_true, runAria]
    repeat' split
    all_goals simp [hp]
  · intro prefer hpf
    simp only [downloadWithUrl, hpf, Bool.false_eq_true, if_false, getFilenameFromHeaders,
      runAria, headerResolvedName]
    repeat' split
    all_goals simp_all
  · intro prefer
    obtain ⟨pr, n, hpr, htr⟩ := downloadWithUrl_trace w outDir url prefer
    rw [htr]
    have hprM : pr.filter isMetaEv = [] :=
      List.filter_eq_nil_iff.mpr (fun e he => by simp [(hpr e he).2])
    simp [List.filter_append, hprM, isMetaEv]

theorem c2_resolution_three_levels_witness :
    (downloadWithUrl
        (⟨⟨[], ["out"], fun _ => 0, fun _ => 0⟩, [], [.exitNonzero], [], 0, []⟩ : World)
        "out" "u" (some "given.safetensors")).1.trace
      = [NetEvent.transfer "u" "given.safetensors"] := by
  have h1 := (c2_resolution_three_levels
    (⟨⟨[], ["out"], fun _ => 0, fun _ => 0⟩, [], [.exitNonzero], [], 0, []⟩ : World)
    "out" "u").1 "given.safetensors" (by decide)
  rw [h1]
  decide

theorem foldl_maxByMtime (mt : String → Int) :
    ∀ (l : List String) (a : String),
      (l.foldl (fun m x => if mt x > mt m then x else m) a) ∈ a :: l ∧
      mt a ≤ mt (l.foldl (fun m x => if mt x > mt m then x else m) a) ∧
      (∀ x ∈ l, mt x ≤ mt (l.foldl (fun m x => if mt x > mt m then x else m) a)) := by
  intro l
  induction l with
  | nil => intro a; exact ⟨by simp, le_rfl, by simp⟩
  | cons b rest ih =>
    intro a
    by_cases h : mt b > mt a
    · obtain ⟨hmem, hle, hall⟩ := ih b
      refine ⟨?_, ?_, ?_⟩
      · simp only [List.foldl_cons, if_pos h]
        rcases List.mem_cons.mp hmem with hm | hm
        · simp [hm]
        · simp [hm]
      · simp only [List.foldl_cons, if_pos h]
        omega
      · intro x hx
        simp only [List.foldl_cons, if_pos h]
        rcases List.mem_cons.mp hx with rfl | hx'
        · exact hle
        · exact hall x hx'
    · obtain ⟨hmem, hle, hall⟩ := ih a
      refine ⟨?_, ?_, ?_⟩
      · simp only [List.foldl_cons, if_neg h]
        rcases List.mem_cons.mp hmem with hm | hm
        · simp [hm]
        · simp [hm]
      · simp only [List.foldl_cons, if_neg h]
        exact hle
      · intro x hx
        simp only [List.foldl_cons, if_neg h]
        rcases List.mem_cons.mp hx with rfl | hx'
        · omega
        · exact hall x hx'

theorem maxByMtime_spec (mt : String → Int) (l : List String) (m : String)
    (h : maxByMtime mt l = some m) : m ∈ l ∧ ∀ x ∈ l, mt x ≤ mt m := by
  cases l with
  | nil => simp [maxByMtime] at h
  | cons a rest =>
    simp only [maxByMtime, Option.some_inj] at h
    obtain ⟨hmem, hle, hall⟩ := foldl_maxByMtime mt rest a
    subst h
    refine ⟨hmem, ?_⟩
    intro x hx
    rcases List.mem_cons.mp hx with rfl | hx'
    · exact hle
    · exact hall x hx'

/-- C10: when aria2 exits successfully but nothing exists at the expected
resolved path, the Transfer Invoker adopts the most recently modified direct
child of the output directory with mtime within the last 120 seconds - the
`maxByMtime` conjuncts pin that choice to a maximal-mtime member of the
recent set - validates that file instead (so the returned path may differ
from the resolved name, as the witness shows), and fails when no such recent
file exists. -/
theorem c10_recent_file_discovery (w : World) (outDir url s : String)
    (hs : s ≠ "")
    (creates : List (String × Nat × Int))
    (hbeh : w.transfers.headD .exitNonzero = .exitOk creates)
    (hmiss : getUniqueFilename w.disk.files outDir s ∉ (applyCreates w.disk creates).files) :
    ((applyCreates w.disk creates).files.filter
        (fun f => childOf outDir f ∧ w.now - (applyCreates w.disk creates).mtime f < 120) = [] →
      (downloadWithUrl w outDir url (some s)).2 = (false, none)) ∧
    (∀ m, maxByMtime (applyCreates w.disk creates).mtime
        ((applyCreates w.disk creates).files.filter
          (fun f => childOf outDir f ∧ w.now - (applyCreates w.disk creates).mtime f < 120))
        = some m →
      (downloadWithUrl w outDir url (some s)).2
        = (if (validateFile (applyCreates w.disk creates) m).1 = true then ((true : Bool), some m)
            else (false, none)) ∧
      m ∈ (applyCreates w.disk creates).files.filter
        (fun f => childOf outDir f ∧ w.now - (applyCreates w.disk creates).mtime f < 120) ∧
      (∀ x ∈ (applyCreates w.disk creates).files.filter
          (fun f => childOf outDir f ∧ w.now - (applyCreates w.disk creates).mtime f < 120),
        (applyCreates w.disk creates).mtime x ≤ (applyCreates w.disk creates).mtime m)) := by
  have hp : truthy (some s) = true := by simp [truthy, hs]
  constructor
  · intro hrec
    simp only [downloadWithUrl, hp, if_true, runAria, hbeh, Option.getD_some]
    simp only [hmiss, if_false, hrec, maxByMtime]
  · intro m hm
    refine ⟨?_, (maxByMtime_spec _ _ m hm).1, (maxByMtime_spec _ _ m hm).2⟩
    simp only [downloadWithUrl, hp, if_true, runAria, hbeh, Option.getD_some]
    simp only [hmiss, if_false, hm]
    split <;> simp_all

theorem c10_recent_file_discovery_witness :
    (downloadWithUrl
        (⟨⟨[], ["out"], fun _ => 0, fun _ => 0⟩, [],
          [.exitOk [("out/other.safetensors", 2097152, 100)]], [], 110, []⟩ : World)
        "out" "u" (some "m.safetensors")).2 = (true, some "out/other.safetensors") ∧
    "out/other.safetensors"
      ≠ getUniqueFilename
          (⟨⟨[], ["out"], fun _ => 0, fun _ => 0⟩, [],
            [.exitOk [("out/other.safetensors", 2097152, 100)]], [], 110, []⟩ : World).disk.files
          "out" "m.safetensors" := by
  have H := c10_recent_file_discovery
    (⟨⟨[], ["out"], fun _ => 0, fun _ => 0⟩, [],
      [.exitOk [("out/other.safetensors", 2097152, 100)]], [], 110, []⟩ : World)
    "out" "u" "m.safetensors" (by decide) [("out/other.safetensors", 2097152, 100)]
    (by decide) (by decide)
  have h2 := (H.2 "out/other.safetensors" (by decide)).1
  constructor
  · rw [h2]
    decide
  · decide
